import Mathlib

/-!
Shallow embedding of `src/app.py` (BitServe): a control plane that keeps a
SQLite catalog of torrents, a bounded in-memory active set of engine handles
(`torrents_actifs`, capacity `MAX_ACTIVE_TORRENTS`), and LRU eviction driven
by the durable `last_access` column.

Modelling conventions:
* the SQLite table `torrents` is a `List TRow` in rowid (insertion) order;
* the Python dict `torrents_actifs` is an association list in insertion order
  (Python dicts preserve insertion order; assignment to an existing key keeps
  its position);
* the wall clock is an oracle: every public operation receives the `now`
  value that `time()` returns during it;
* the external Transfer Engine (libtorrent) is modelled from the spec:
  `session.add_torrent` yields a fresh handle whose cumulative session
  counters start at zero and whose payload directory (named after the
  torrent metadata name) appears under the download root;
  `session.remove_torrent(handle, delete_files)` optionally deletes that
  payload directory; whether a load succeeds is an oracle `Bool`;
* a ghost `flushLog` records every successful `db_update_torrent_stats`
  write (the SQL UPDATE is a silent no-op when the row is absent).
-/

/-- An engine handle: the torrent's metadata name (which names its payload
directory under the download root) and its cumulative session counters. -/
structure Handle where
  hname : String
  up : Nat
  down : Nat
deriving DecidableEq, Repr

/-- One row of the SQLite `torrents` table, in declaration order of the
columns.  `active` is the INTEGER column written as 0/1 by the code. -/
structure TRow where
  info_hash : String
  name : Option String
  total_uploaded : Nat
  total_downloaded : Nat
  last_access : Nat
  active : Nat
deriving DecidableEq, Repr

/-- The whole mutable state of the application: the DB, the in-memory dict
of handles, the `.torrent` archive directory (id ↦ metadata name parsed from
the blob), the payload directories existing under `downloads/`, the
configured capacity `MAX_ACTIVE_TORRENTS`, and the ghost flush log. -/
structure AppState where
  catalog : List TRow
  torrents_actifs : List (String × Handle)
  torrent_files : List (String × String)
  payloads : List String
  maxActive : Nat
  flushLog : List (String × Nat × Nat)
deriving DecidableEq, Repr

/-- Keys of the `torrents_actifs` dict. -/
def mapKeys (s : AppState) : List String := s.torrents_actifs.map (·.1)

/-- Python `info_hash in torrents_actifs`. -/
def mapHasKey (s : AppState) (id : String) : Bool :=
  s.torrents_actifs.any (fun p => p.1 == id)

/-- Python `torrents_actifs[info_hash]` (as an `Option`). -/
def lookupHandle (s : AppState) (id : String) : Option Handle :=
  (s.torrents_actifs.find? (fun p => p.1 == id)).map (·.2)

/-- Python `os.path.exists` + parse of `{id}.torrent` in the archive dir:
returns the metadata name stored in the blob. -/
def fileLookup (s : AppState) (id : String) : Option String :=
  (s.torrent_files.find? (fun p => p.1 == id)).map (·.2)

/-- Writing `{id}.torrent` (overwrite-safe, keeps directory order). -/
def filesPut (fs : List (String × String)) (id nm : String) :
    List (String × String) :=
  if fs.any (fun p => p.1 == id) then
    fs.map (fun p => if p.1 == id then (id, nm) else p)
  else fs ++ [(id, nm)]

/-- Python dict assignment `torrents_actifs[id] = h`: replace in place if the
key exists, else append. -/
def dictSet (m : List (String × Handle)) (id : String) (h : Handle) :
    List (String × Handle) :=
  if m.any (fun p => p.1 == id) then
    m.map (fun p => if p.1 == id then (id, h) else p)
  else m ++ [(id, h)]

/-- Modelled from the spec: the engine starts writing the torrent's payload
directory under the download root when the handle is loaded. -/
def payloadPut (ps : List String) (nm : String) : List String :=
  if ps.any (fun p => p == nm) then ps else ps ++ [nm]

/-- `db_insert_torrent`: INSERT with the `sqlite3.IntegrityError` swallowed,
so a duplicate primary key is a silent no-op.  Counters take the schema
default 0; `active` is written 1 and `last_access` the current time. -/
def db_insert_torrent (s : AppState) (id nm : String) (now : Nat) : AppState :=
  if s.catalog.any (fun r => r.info_hash == id) then s
  else { s with catalog := s.catalog ++ [⟨id, some nm, 0, 0, now, 1⟩] }

/-- `db_update_torrent_stats`: overwrite both counters; silent no-op when the
row is absent.  The ghost `flushLog` records the write when it lands. -/
def db_update_torrent_stats (s : AppState) (id : String) (u d : Nat) :
    AppState :=
  { s with
    catalog := s.catalog.map (fun r =>
      if r.info_hash == id then
        { r with total_uploaded := u, total_downloaded := d } else r),
    flushLog :=
      if s.catalog.any (fun r => r.info_hash == id) then
        s.flushLog ++ [(id, u, d)]
      else s.flushLog }

/-- `db_update_torrent_access`: set `last_access = time()` and the `active`
flag on the row of `id` (silent no-op if absent). -/
def db_update_torrent_access (s : AppState) (id : String) (active now : Nat) :
    AppState :=
  { s with
    catalog := s.catalog.map (fun r =>
      if r.info_hash == id then
        { r with last_access := now, active := active } else r) }

/-- `db_delete_torrent`. -/
def db_delete_torrent (s : AppState) (id : String) : AppState :=
  { s with catalog := s.catalog.filter (fun r => !(r.info_hash == id)) }

/-- `db_get_torrent`: first row with the given primary key. -/
def db_get_torrent (s : AppState) (id : String) : Option TRow :=
  s.catalog.find? (fun r => r.info_hash == id)

/-- `db_list_active_torrents`: `SELECT info_hash FROM torrents WHERE
active = 1`, returned in rowid order (SQLite table scan order). -/
def db_list_active_torrents (s : AppState) : List String :=
  (s.catalog.filter (fun r => r.active == 1)).map (·.info_hash)

/-- `pause_torrent`: drop the handle from the session and the dict if it is
resident (`session.remove_torrent(handle, False)` never touches the
payload), then mark the row inactive with a fresh `last_access`. -/
def pause_torrent (s : AppState) (id : String) (now : Nat) : AppState :=
  let s1 :=
    if mapHasKey s id then
      { s with torrents_actifs :=
          s.torrents_actifs.filter (fun p => !(p.1 == id)) }
    else s
  db_update_torrent_access s1 id 0 now

/-- The key of the Python `sorted(..., key=lambda h: db_get_torrent(h)["last_access"])`
call; the rows consulted exist for every member of the active list. -/
def lruKey (s : AppState) (h : String) : Nat :=
  ((db_get_torrent s h).map (·.last_access)).getD 0

/-- Stable insertion of one element into a list sorted by `key`, keeping an
equal-key element after those already present (Python `sorted` is stable, and
any two stable sorts agree). -/
def insertByKey (key : String → Nat) (x : String) :
    List String → List String
  | [] => [x]
  | y :: ys =>
    if key x ≤ key y then x :: y :: ys else y :: insertByKey key x ys

/-- Stable sort by `key`. -/
def sortByKey (key : String → Nat) : List String → List String
  | [] => []
  | x :: xs => insertByKey key x (sortByKey key xs)

/-- The `while len(active_list) > MAX_ACTIVE_TORRENTS` loop of
`ensure_memory_limit`: pause the front (least recently used) element and pop
it while the remaining snapshot is still over capacity. -/
def evictLoop (now : Nat) : AppState → List String → AppState
  | s, [] => s
  | s, h :: rest =>
    if rest.length + 1 > s.maxActive then
      evictLoop now (pause_torrent s h now) rest
    else s

/-- `ensure_memory_limit`: sort the currently active ids by durable
`last_access` (stable, so ties keep rowid order) and evict from the front
until at most `MAX_ACTIVE_TORRENTS` remain. -/
def ensure_memory_limit (s : AppState) (now : Nat) : AppState :=
  evictLoop now s (sortByKey (lruKey s) (db_list_active_torrents s))

/-- `add_torrent_from_file`: everything runs inside one `try`; opening or
decoding a missing/bad file, or a failed `session.add_torrent` (the
`engineOk` oracle), leaves the state untouched except for the log.  On
success: insert the handle, flush the carried-in counters, mark the row
active, then enforce the capacity limit.  (The `name` argument of the source
is only used for logging, so it is omitted; the handle's payload name comes
from the decoded blob.) -/
def add_torrent_from_file (s : AppState) (id : String) (tu td now : Nat)
    (engineOk : Bool) : AppState :=
  match fileLookup s id with
  | none => s
  | some nm =>
    if engineOk then
      let s1 := { s with
        torrents_actifs := dictSet s.torrents_actifs id ⟨nm, 0, 0⟩,
        payloads := payloadPut s.payloads nm }
      let s2 := db_update_torrent_stats s1 id tu td
      let s3 := db_update_torrent_access s2 id 1 now
      ensure_memory_limit s3 now
    else s

/-- `resume_torrent`: 404 when the row is missing; refresh only when already
resident; 404 when the archive blob is missing; otherwise load — and a
failing engine load is caught and merely logged, so the caller still gets a
normal return (`.ok` with the state unchanged). -/
def resume_torrent (s : AppState) (id : String) (now : Nat)
    (engineOk : Bool) : Except Nat AppState :=
  match db_get_torrent s id with
  | none => .error 404
  | some record =>
    if record.active == 1 && mapHasKey s id then
      .ok (db_update_torrent_access s id 1 now)
    else
      match fileLookup s id with
      | none => .error 404
      | some nm =>
        if engineOk then
          .ok (db_update_torrent_access
            { s with
              torrents_actifs := dictSet s.torrents_actifs id ⟨nm, 0, 0⟩,
              payloads := payloadPut s.payloads nm } id 1 now)
        else .ok s

/-- `/resume-torrent/{info_hash}`: a raised `HTTPException` propagates before
`ensure_memory_limit` runs; otherwise the limit is enforced afterwards. -/
def resume_torrent_endpoint (s : AppState) (id : String) (now : Nat)
    (engineOk : Bool) : Except Nat AppState :=
  match resume_torrent s id now engineOk with
  | .error e => .error e
  | .ok s' => .ok (ensure_memory_limit s' now)

/-- `/pause-torrent/{info_hash}`: 404 when unknown; a no-op success
(`Bool` result `false`, the "Déjà inactif" message) when the row is already
inactive; otherwise pause. -/
def pause_torrent_endpoint (s : AppState) (id : String) (now : Nat) :
    Except Nat (AppState × Bool) :=
  match db_get_torrent s id with
  | none => .error 404
  | some record =>
    if record.active == 0 then .ok (s, false)
    else .ok (pause_torrent s id now, true)

/-- Per-upload oracle for `/add-torrents/`: the MIME check, the result of
`lt.torrent_info(lt.bdecode(contents))` (`none` = parse failure, otherwise
the info hash and metadata name), and whether the engine load succeeds. -/
structure UploadOracle where
  mimeOk : Bool
  parsed : Option (String × String)
  engineOk : Bool
deriving DecidableEq, Repr

/-- `process_torrent_file` inside `/add-torrents/`: reject bad MIME or a
parse failure; reject a duplicate id before anything is written; otherwise
write the blob, insert the row (already active), and activate. -/
def process_torrent_file (s : AppState) (o : UploadOracle) (now : Nat) :
    AppState × Bool :=
  if !o.mimeOk then (s, false)
  else
    match o.parsed with
    | none => (s, false)
    | some (id, nm) =>
      if (db_get_torrent s id).isSome then (s, false)
      else
        let s1 := { s with torrent_files := filesPut s.torrent_files id nm }
        let s2 := db_insert_torrent s1 id nm now
        (add_torrent_from_file s2 id 0 0 now o.engineOk, true)

/-- `/add-torrents/`: the batch processes its files in order (the event loop
interleaves only at the upload reads, before any state is touched). -/
def add_torrents (s : AppState) (files : List UploadOracle) (now : Nat) :
    AppState :=
  files.foldl (fun acc o => (process_torrent_file acc o now).1) s

/-- Truthiness test `record["name"] and record["name"] != "Unknown"` guarding
payload deletion (`None` and the empty string are falsy). -/
def nameGoodB : Option String → Bool
  | none => false
  | some n => !(n == "") && !(n == "Unknown")

/-- One iteration of the `/remove-torrents/` loop: unknown ids are counted,
a resident handle is unloaded (`session.remove_torrent(handle, remove_files)`
deletes the payload when asked — modelled from the spec's
`unload(handle, delete_files)`), the blob is removed if present, the payload
directory is removed only under the name guard, and the row is deleted. -/
def remove_one (s : AppState) (id : String) (rf : Bool) : AppState × Bool :=
  match db_get_torrent s id with
  | none => (s, false)
  | some record =>
    let s1 :=
      match lookupHandle s id with
      | some h =>
        { s with
          torrents_actifs :=
            s.torrents_actifs.filter (fun p => !(p.1 == id)),
          payloads := if rf then s.payloads.erase h.hname else s.payloads }
      | none => s
    let s2 := { s1 with
      torrent_files := s1.torrent_files.filter (fun p => !(p.1 == id)) }
    let s3 :=
      if rf && nameGoodB record.name then
        { s2 with payloads := s2.payloads.erase ((record.name).getD "") }
      else s2
    (db_delete_torrent s3 id, true)

/-- `/remove-torrents/`: fold over the requested ids, collecting `removed`
and `not_found` (the final 404 fires only when both lists are empty, which
needs an empty request, and performs no writes). -/
def remove_torrents (s : AppState) (ids : List String) (rf : Bool) :
    AppState × List String × List String :=
  ids.foldl
    (fun acc id =>
      let r := remove_one acc.1 id rf
      if r.2 then (r.1, acc.2.1 ++ [id], acc.2.2)
      else (acc.1, acc.2.1, acc.2.2 ++ [id]))
    (s, [], [])

/-- `startup_event`: a fresh process starts with an empty dict, then walks
the snapshot of rows claiming `active = 1`; rows whose blob is on disk are
re-activated (carrying their stored counters), missing blobs are only
logged.  `engineFail` lists the ids whose engine load fails. -/
def startup_event (s : AppState) (now : Nat) (engineFail : List String) :
    AppState :=
  let s0 := { s with torrents_actifs := [] }
  (db_list_active_torrents s0).foldl
    (fun acc h =>
      match db_get_torrent acc h with
      | none => acc
      | some record =>
        match fileLookup acc h with
        | some _ =>
          add_torrent_from_file acc h record.total_uploaded
            record.total_downloaded now (!(engineFail.contains h))
        | none => acc)
    s0

/-- `shutdown_event`: flush every resident handle's counters to the DB
(the session save touches no modelled state). -/
def shutdown_event (s : AppState) : AppState :=
  s.torrents_actifs.foldl
    (fun acc p => db_update_torrent_stats acc p.1 p.2.up p.2.down) s

/-- Engine progress between operations: each listed resident id's session
counters grow by the given deltas (modelled from the spec: the engine's
cumulative counters never shrink while a handle stays loaded). -/
def tick (s : AppState) (ds : List (String × Nat × Nat)) : AppState :=
  { s with torrents_actifs := s.torrents_actifs.map (fun p =>
      match ds.find? (fun q => q.1 == p.1) with
      | some q => (p.1, { p.2 with up := p.2.up + q.2.1,
                                   down := p.2.down + q.2.2 })
      | none => p) }

/-- A completed public operation together with its environment oracles. -/
inductive Op where
  | add (files : List UploadOracle) (now : Nat)
  | pause (id : String) (now : Nat)
  | resume (id : String) (now : Nat) (engineOk : Bool)
  | remove (ids : List String) (rf : Bool)
  | startup (now : Nat) (engineFail : List String)
  | shutdown
  | tick (ds : List (String × Nat × Nat))
deriving DecidableEq, Repr

/-- One completed public operation; an HTTP error leaves the state as the
handler found it (no write precedes a raise in the source paths). -/
def step (s : AppState) : Op → AppState
  | .add files now => add_torrents s files now
  | .pause id now =>
    match pause_torrent_endpoint s id now with
    | .ok r => r.1
    | .error _ => s
  | .resume id now engineOk =>
    match resume_torrent_endpoint s id now engineOk with
    | .ok s' => s'
    | .error _ => s
  | .remove ids rf => (remove_torrents s ids rf).1
  | .startup now engineFail => startup_event s now engineFail
  | .shutdown => shutdown_event s
  | .tick ds => tick s ds

/-- Run a sequence of completed public operations. -/
def run (s : AppState) (ops : List Op) : AppState := ops.foldl step s

/-- The state of a fresh installation with configured capacity `C`. -/
def initState (C : Nat) : AppState :=
  { catalog := [], torrents_actifs := [], torrent_files := [],
    payloads := [], maxActive := C, flushLog := [] }

/-- Ids of all catalog rows, in rowid order. -/
def catIds (s : AppState) : List String := s.catalog.map (·.info_hash)

/-- The structural part of the system invariant: primary keys are unique,
dict keys are unique, and every resident handle has a catalog row currently
flagged `active = 1`. -/
def SysInv3 (s : AppState) : Prop :=
  (catIds s).Nodup ∧ (mapKeys s).Nodup ∧
    ∀ k ∈ mapKeys s, k ∈ db_list_active_torrents s

/-- The full system invariant: structure plus the capacity bound on the
in-memory active set. -/
def SysInv (s : AppState) : Prop := SysInv3 s ∧ (mapKeys s).length ≤ s.maxActive

lemma any_fst_eq_mem {β : Type} (m : List (String × β)) (id : String) :
    (m.any (fun p => p.1 == id)) = true ↔ id ∈ m.map (·.1) := by
  simp [List.any_eq_true, List.mem_map]

lemma any_row_eq_mem (l : List TRow) (id : String) :
    (l.any (fun r => r.info_hash == id)) = true ↔ id ∈ l.map (·.info_hash) := by
  simp [List.any_eq_true, List.mem_map]

lemma mapHasKey_iff (s : AppState) (id : String) :
    mapHasKey s id = true ↔ id ∈ mapKeys s :=
  any_fst_eq_mem _ _

lemma db_get_isSome_iff (s : AppState) (id : String) :
    (db_get_torrent s id).isSome = true ↔ id ∈ catIds s := by
  simp [db_get_torrent, catIds, List.find?_isSome, List.mem_map]

lemma db_get_eq_none_iff (s : AppState) (id : String) :
    db_get_torrent s id = none ↔ id ∉ catIds s := by
  rw [← Option.not_isSome_iff_eq_none, not_iff_not]
  exact db_get_isSome_iff s id

lemma db_get_mem (s : AppState) (id : String) (r : TRow)
    (h : db_get_torrent s id = some r) : r ∈ s.catalog ∧ r.info_hash = id := by
  refine ⟨List.mem_of_find?_eq_some h, ?_⟩
  have := List.find?_some h
  simpa using this

/-! Frame lemmas: which components each primitive leaves untouched. -/

@[simp] lemma stats_map (s : AppState) (id : String) (u d : Nat) :
    (db_update_torrent_stats s id u d).torrents_actifs = s.torrents_actifs := rfl

@[simp] lemma stats_files (s : AppState) (id : String) (u d : Nat) :
    (db_update_torrent_stats s id u d).torrent_files = s.torrent_files := rfl

@[simp] lemma stats_payloads (s : AppState) (id : String) (u d : Nat) :
    (db_update_torrent_stats s id u d).payloads = s.payloads := rfl

@[simp] lemma stats_maxActive (s : AppState) (id : String) (u d : Nat) :
    (db_update_torrent_stats s id u d).maxActive = s.maxActive := rfl

@[simp] lemma access_map (s : AppState) (id : String) (a n : Nat) :
    (db_update_torrent_access s id a n).torrents_actifs = s.torrents_actifs := rfl

@[simp] lemma access_files (s : AppState) (id : String) (a n : Nat) :
    (db_update_torrent_access s id a n).torrent_files = s.torrent_files := rfl

@[simp] lemma access_payloads (s : AppState) (id : String) (a n : Nat) :
    (db_update_torrent_access s id a n).payloads = s.payloads := rfl

@[simp] lemma access_maxActive (s : AppState) (id : String) (a n : Nat) :
    (db_update_torrent_access s id a n).maxActive = s.maxActive := rfl

@[simp] lemma access_flushLog (s : AppState) (id : String) (a n : Nat) :
    (db_update_torrent_access s id a n).flushLog = s.flushLog := rfl

lemma pause_files (s : AppState) (id : String) (n : Nat) :
    (pause_torrent s id n).torrent_files = s.torrent_files := by
  simp only [pause_torrent]
  split <;> rfl

lemma pause_payloads (s : AppState) (id : String) (n : Nat) :
    (pause_torrent s id n).payloads = s.payloads := by
  simp only [pause_torrent]
  split <;> rfl

lemma pause_maxActive (s : AppState) (id : String) (n : Nat) :
    (pause_torrent s id n).maxActive = s.maxActive := by
  simp only [pause_torrent]
  split <;> rfl

lemma pause_flushLog (s : AppState) (id : String) (n : Nat) :
    (pause_torrent s id n).flushLog = s.flushLog := by
  simp only [pause_torrent]
  split <;> rfl

/-! Effect of the primitives on `catIds`, `db_list_active_torrents`,
`mapKeys`. -/

lemma catIds_map_preserve (l : List TRow) (f : TRow → TRow)
    (hh : ∀ r, (f r).info_hash = r.info_hash) :
    (l.map f).map (·.info_hash) = l.map (·.info_hash) := by
  induction l with
  | nil => rfl
  | cons r l ih => simp [ih, hh]

lemma catIds_stats (s : AppState) (id : String) (u d : Nat) :
    catIds (db_update_torrent_stats s id u d) = catIds s := by
  simp only [catIds, db_update_torrent_stats]
  apply catIds_map_preserve
  intro r
  split <;> rfl

lemma catIds_access (s : AppState) (id : String) (a n : Nat) :
    catIds (db_update_torrent_access s id a n) = catIds s := by
  simp only [catIds, db_update_torrent_access]
  apply catIds_map_preserve
  intro r
  split <;> rfl

lemma catIds_pause (s : AppState) (id : String) (n : Nat) :
    catIds (pause_torrent s id n) = catIds s := by
  simp only [pause_torrent]
  split <;> exact catIds_access _ _ _ _

lemma activeIds_map_preserve (l : List TRow) (f : TRow → TRow)
    (hh : ∀ r, (f r).info_hash = r.info_hash)
    (ha : ∀ r, (f r).active = r.active) :
    ((l.map f).filter (fun r => r.active == 1)).map (·.info_hash)
      = (l.filter (fun r => r.active == 1)).map (·.info_hash) := by
  induction l with
  | nil => rfl
  | cons r l ih =>
    by_cases h : r.active = 1 <;> simp [h, ha, hh, ih]

lemma activeIds_stats (s : AppState) (id : String) (u d : Nat) :
    db_list_active_torrents (db_update_torrent_stats s id u d)
      = db_list_active_torrents s := by
  simp only [db_list_active_torrents, db_update_torrent_stats]
  apply activeIds_map_preserve <;> intro r <;> split <;> rfl


lemma activeIds_pause (s : AppState) (id : String) (n : Nat) :
    db_list_active_torrents (pause_torrent s id n)
      = (db_list_active_torrents s).filter (fun h => !(h == id)) := by
  have core : ∀ (l : List TRow),
      ((l.map (fun r => if r.info_hash == id then
          { r with last_access := n, active := 0 } else r)).filter
            (fun r => r.active == 1)).map (·.info_hash)
        = ((l.filter (fun r => r.active == 1)).map (·.info_hash)).filter
            (fun h => !(h == id)) := by
    intro l
    rw [List.filter_map, List.map_map]
    rw [List.filter_map]
    rw [List.filter_filter]
    have h1 : ((fun (r : TRow) => r.active == 1) ∘ fun r =>
        if r.info_hash == id then
          { r with last_access := n, active := 0 } else r)
        = fun r => !(r.info_hash == id) && (r.active == 1) := by
      funext r
      by_cases h : r.info_hash = id <;> simp [Function.comp, h]
    have h2 : ((fun (x : TRow) => x.info_hash) ∘ fun r =>
        if r.info_hash == id then
          { r with last_access := n, active := 0 } else r)
        = fun (r : TRow) => r.info_hash := by
      funext r
      by_cases h : r.info_hash = id <;> simp [Function.comp, h]
    rw [h1, h2]
    have h3 : (l.filter fun r => !(r.info_hash == id) && (r.active == 1))
        = l.filter fun a =>
            ((fun h => !(h == id)) ∘ fun (x : TRow) => x.info_hash) a
              && (a.active == 1) := rfl
    rw [h3]
  simp only [pause_torrent]
  split <;> exact core _

lemma keys_filter_comm {β : Type} (m : List (String × β)) (id : String) :
    (m.filter (fun p => !(p.1 == id))).map (·.1)
      = (m.map (·.1)).filter (fun k => !(k == id)) := by
  rw [List.filter_map]
  rfl

lemma filter_ne_of_not_mem (l : List String) (id : String) (h : id ∉ l) :
    l.filter (fun k => !(k == id)) = l := by
  apply List.filter_eq_self.mpr
  intro a ha
  have hne : ¬ a = id := fun e => h (e ▸ ha)
  simp [hne]

lemma mapKeys_pause (s : AppState) (id : String) (n : Nat) :
    mapKeys (pause_torrent s id n)
      = (mapKeys s).filter (fun k => !(k == id)) := by
  simp only [pause_torrent]
  by_cases h : mapHasKey s id = true
  · simp only [h, if_true, db_update_torrent_access]
    exact keys_filter_comm _ _
  · have hnot : id ∉ mapKeys s := fun hmem => h ((mapHasKey_iff s id).mpr hmem)
    simp only [h, if_false, db_update_torrent_access]
    exact (filter_ne_of_not_mem _ _ hnot).symm

lemma activeIds_access_one (s : AppState) (id : String) (n : Nat) :
    db_list_active_torrents (db_update_torrent_access s id 1 n)
      = (s.catalog.filter
          (fun r => (r.info_hash == id) || (r.active == 1))).map (·.info_hash) := by
  simp only [db_list_active_torrents, db_update_torrent_access]
  rw [List.filter_map, List.map_map]
  have h1 : ((fun (r : TRow) => r.active == 1) ∘ fun r =>
      if r.info_hash == id then
        { r with last_access := n, active := 1 } else r)
      = fun r => (r.info_hash == id) || (r.active == 1) := by
    funext r
    by_cases h : r.info_hash = id <;> simp [Function.comp, h]
  have h2 : ((fun (x : TRow) => x.info_hash) ∘ fun r =>
      if r.info_hash == id then
        { r with last_access := n, active := 1 } else r)
      = fun (r : TRow) => r.info_hash := by
    funext r
    by_cases h : r.info_hash = id <;> simp [Function.comp, h]
  rw [h1, h2]

lemma mem_activeIds_access_one_of_mem (s : AppState) (id k : String) (n : Nat)
    (hk : k ∈ db_list_active_torrents s) :
    k ∈ db_list_active_torrents (db_update_torrent_access s id 1 n) := by
  rw [activeIds_access_one]
  simp only [db_list_active_torrents, List.mem_map, List.mem_filter] at hk ⊢
  rcases hk with ⟨r, ⟨hr, ha⟩, hh⟩
  exact ⟨r, ⟨hr, by simp [ha]⟩, hh⟩

lemma mem_activeIds_access_one_self (s : AppState) (id : String) (n : Nat)
    (hid : id ∈ catIds s) :
    id ∈ db_list_active_torrents (db_update_torrent_access s id 1 n) := by
  rw [activeIds_access_one]
  simp only [catIds, List.mem_map] at hid
  rcases hid with ⟨r, hr, hh⟩
  simp only [List.mem_map, List.mem_filter]
  exact ⟨r, ⟨hr, by simp [hh]⟩, hh⟩

/-- First element of the list achieving the minimal key: the LRU victim the
spec describes (oldest `last_access`, ties broken by earliest rowid). -/
def firstMin (key : String → Nat) : List String → Option String
  | [] => none
  | x :: xs =>
    match firstMin key xs with
    | none => some x
    | some m => if key x ≤ key m then some x else some m

lemma insertByKey_perm (key : String → Nat) (x : String) (l : List String) :
    (insertByKey key x l).Perm (x :: l) := by
  induction l with
  | nil => exact List.Perm.refl _
  | cons y ys ih =>
    simp only [insertByKey]
    split
    · exact List.Perm.refl _
    · exact (List.Perm.cons y ih).trans (List.Perm.swap x y ys)

lemma sortByKey_perm (key : String → Nat) (l : List String) :
    (sortByKey key l).Perm l := by
  induction l with
  | nil => exact List.Perm.refl _
  | cons x xs ih =>
    exact (insertByKey_perm key x (sortByKey key xs)).trans (List.Perm.cons x ih)

lemma sortByKey_length (key : String → Nat) (l : List String) :
    (sortByKey key l).length = l.length :=
  (sortByKey_perm key l).length_eq

lemma sortByKey_eq_nil (key : String → Nat) (l : List String)
    (h : sortByKey key l = []) : l = [] := by
  have := sortByKey_length key l
  rw [h] at this
  exact List.length_eq_zero.mp this.symm


lemma sortByKey_head_firstMin (key : String → Nat) (l : List String) :
    (sortByKey key l).head? = firstMin key l := by
  induction l with
  | nil => rfl
  | cons x xs ih =>
    simp only [sortByKey, firstMin]
    cases hs : sortByKey key xs with
    | nil =>
      have h0 : firstMin key xs = none := by
        rw [← ih, hs]
        rfl
      rw [h0]
      rfl
    | cons y ys =>
      have hm : firstMin key xs = some y := by
        rw [← ih, hs]
        rfl
      rw [hm]
      show (insertByKey key x (y :: ys)).head?
        = if key x ≤ key y then some x else some y
      simp only [insertByKey]
      by_cases hc : key x ≤ key y
      · rw [if_pos hc, if_pos hc]
        rfl
      · rw [if_neg hc, if_neg hc]
        rfl

lemma firstMin_cons_isSome (key : String → Nat) :
    ∀ (xs : List String) (x : String),
      (firstMin key (x :: xs)).isSome = true := by
  intro xs
  induction xs with
  | nil => intro x; rfl
  | cons a b ih =>
    intro x
    rw [firstMin]
    cases hx : firstMin key (a :: b) with
    | none =>
      have := ih a
      rw [hx] at this
      simp at this
    | some c =>
      show (if key x ≤ key c then some x else some c).isSome = true
      by_cases hc : key x ≤ key c
      · rw [if_pos hc]
        rfl
      · rw [if_neg hc]
        rfl

lemma firstMin_le (key : String → Nat) :
    ∀ (l : List String) (m : String), firstMin key l = some m →
      ∀ u ∈ l, key m ≤ key u := by
  intro l
  induction l with
  | nil =>
    intro m h u hu
    simp at hu
  | cons x xs ih =>
    intro m h u hu
    simp only [firstMin] at h
    cases hx : firstMin key xs with
    | none =>
      rw [hx] at h
      have h' : some x = some m := h
      have hm : x = m := by injection h'
      subst hm
      cases xs with
      | nil =>
        rcases List.mem_cons.mp hu with rfl | h2
        · exact le_refl _
        · simp at h2
      | cons a b =>
        have hs := firstMin_cons_isSome key b a
        rw [hx] at hs
        simp at hs
    | some c =>
      rw [hx] at h
      have h' : (if key x ≤ key c then some x else some c) = some m := h
      by_cases hc : key x ≤ key c
      · rw [if_pos hc] at h'
        have hm : x = m := by injection h'
        subst hm
        rcases List.mem_cons.mp hu with rfl | h2
        · exact le_refl _
        · exact le_trans hc (ih c hx u h2)
      · rw [if_neg hc] at h'
        have hm : c = m := by injection h'
        subst hm
        rcases List.mem_cons.mp hu with rfl | h2
        · exact le_of_lt (Nat.lt_of_not_le hc)
        · exact ih c hx u h2

lemma firstMin_split (key : String → Nat) :
    ∀ (l : List String) (m : String), firstMin key l = some m →
      ∃ l1 l2, l = l1 ++ m :: l2 ∧ ∀ u ∈ l1, key m < key u := by
  intro l
  induction l with
  | nil =>
    intro m h
    simp [firstMin] at h
  | cons x xs ih =>
    intro m h
    simp only [firstMin] at h
    cases hx : firstMin key xs with
    | none =>
      rw [hx] at h
      have h' : some x = some m := h
      have hm : x = m := by injection h'
      refine ⟨[], xs, by rw [hm]; rfl, ?_⟩
      intro u hu
      simp at hu
    | some c =>
      rw [hx] at h
      have h' : (if key x ≤ key c then some x else some c) = some m := h
      by_cases hc : key x ≤ key c
      · rw [if_pos hc] at h'
        have hm : x = m := by injection h'
        refine ⟨[], xs, by rw [hm]; rfl, ?_⟩
        intro u hu
        simp at hu
      · rw [if_neg hc] at h'
        have hm : c = m := by injection h'
        subst hm
        rcases ih c hx with ⟨l1, l2, heq, hlt⟩
        refine ⟨x :: l1, l2, by rw [heq]; rfl, ?_⟩
        intro u hu
        rcases List.mem_cons.mp hu with rfl | h2
        · exact Nat.lt_of_not_le hc
        · exact hlt u h2

lemma firstMin_mem (key : String → Nat) (l : List String) (m : String)
    (h : firstMin key l = some m) : m ∈ l := by
  rcases firstMin_split key l m h with ⟨l1, l2, heq, _⟩
  rw [heq]
  exact List.mem_append_right _ (List.mem_cons_self _ _)

lemma activeIds_nodup (s : AppState) (hcat : (catIds s).Nodup) :
    (db_list_active_torrents s).Nodup := by
  simp only [db_list_active_torrents, catIds] at *
  exact hcat.sublist ((List.filter_sublist s.catalog).map (·.info_hash))

lemma evictLoop_frame (now : Nat) : ∀ (l : List String) (s : AppState),
    (evictLoop now s l).torrent_files = s.torrent_files
    ∧ (evictLoop now s l).payloads = s.payloads
    ∧ (evictLoop now s l).maxActive = s.maxActive
    ∧ (evictLoop now s l).flushLog = s.flushLog
    ∧ catIds (evictLoop now s l) = catIds s := by
  intro l
  induction l with
  | nil =>
    intro s
    exact ⟨rfl, rfl, rfl, rfl, rfl⟩
  | cons h rest ih =>
    intro s
    rw [evictLoop]
    by_cases hc : rest.length + 1 > s.maxActive
    · rw [if_pos hc]
      obtain ⟨f1, f2, f3, f4, f5⟩ := ih (pause_torrent s h now)
      exact ⟨f1.trans (pause_files s h now), f2.trans (pause_payloads s h now),
             f3.trans (pause_maxActive s h now), f4.trans (pause_flushLog s h now),
             f5.trans (catIds_pause s h now)⟩
    · rw [if_neg hc]
      exact ⟨rfl, rfl, rfl, rfl, rfl⟩

lemma evictLoop_main (now : Nat) : ∀ (l : List String) (s : AppState),
    List.Perm l (db_list_active_torrents s) →
    (catIds s).Nodup →
    (mapKeys s).Nodup →
    (∀ k ∈ mapKeys s, k ∈ db_list_active_torrents s) →
    (db_list_active_torrents (evictLoop now s l)).length ≤ s.maxActive
    ∧ (catIds (evictLoop now s l)).Nodup
    ∧ (mapKeys (evictLoop now s l)).Nodup
    ∧ ∀ k ∈ mapKeys (evictLoop now s l),
        k ∈ db_list_active_torrents (evictLoop now s l) := by
  intro l
  induction l with
  | nil =>
    intro s hperm hcat hmap hsub
    have hempty : db_list_active_torrents s = [] := hperm.symm.eq_nil
    refine ⟨?_, hcat, hmap, hsub⟩
    rw [evictLoop, hempty]
    exact Nat.zero_le _
  | cons h rest ih =>
    intro s hperm hcat hmap hsub
    rw [evictLoop]
    by_cases hc : rest.length + 1 > s.maxActive
    · rw [if_pos hc]
      have hactive' := activeIds_pause s h now
      have hcat' : (catIds (pause_torrent s h now)).Nodup := by
        rw [catIds_pause]
        exact hcat
      have hmapk := mapKeys_pause s h now
      have hmap' : (mapKeys (pause_torrent s h now)).Nodup := by
        rw [hmapk]
        exact hmap.filter _
      have hA_nodup : (db_list_active_torrents s).Nodup := activeIds_nodup s hcat
      have hperm' : List.Perm rest (db_list_active_torrents (pause_torrent s h now)) := by
        have hfe : List.filter (fun x => !(x == h)) (db_list_active_torrents s)
            = List.filter (fun x => x != h) (db_list_active_torrents s) :=
          List.filter_congr (fun a _ => rfl)
        rw [hactive', hfe, ← hA_nodup.erase_eq_filter h]
        exact (List.cons_perm_iff_perm_erase.mp hperm).2
      have hsub' : ∀ k ∈ mapKeys (pause_torrent s h now),
          k ∈ db_list_active_torrents (pause_torrent s h now) := by
        intro k hk
        rw [hmapk] at hk
        have hk2 := List.mem_filter.mp hk
        rw [hactive']
        exact List.mem_filter.mpr ⟨hsub k hk2.1, hk2.2⟩
      have hmain := ih (pause_torrent s h now) hperm' hcat' hmap' hsub'
      rw [pause_maxActive] at hmain
      exact hmain
    · rw [if_neg hc]
      have hlen : (db_list_active_torrents s).length = rest.length + 1 := by
        rw [← hperm.length_eq]
        rfl
      refine ⟨?_, hcat, hmap, hsub⟩
      rw [hlen]
      omega

lemma ensure_sysinv (s : AppState) (now : Nat) (h3 : SysInv3 s) :
    SysInv (ensure_memory_limit s now)
    ∧ (ensure_memory_limit s now).maxActive = s.maxActive
    ∧ (ensure_memory_limit s now).torrent_files = s.torrent_files
    ∧ (ensure_memory_limit s now).payloads = s.payloads
    ∧ (ensure_memory_limit s now).flushLog = s.flushLog
    ∧ (db_list_active_torrents (ensure_memory_limit s now)).length ≤ s.maxActive := by
  obtain ⟨hcat, hmap, hsub⟩ := h3
  simp only [ensure_memory_limit]
  have hperm := sortByKey_perm (lruKey s) (db_list_active_torrents s)
  have hmain := evictLoop_main now (sortByKey (lruKey s) (db_list_active_torrents s))
    s hperm hcat hmap hsub
  have hframe := evictLoop_frame now (sortByKey (lruKey s) (db_list_active_torrents s)) s
  obtain ⟨hlen, hcat', hmap', hsub'⟩ := hmain
  obtain ⟨f1, f2, f3, f4, f5⟩ := hframe
  refine ⟨⟨⟨hcat', hmap', hsub'⟩, ?_⟩, f3, f1, f2, f4, hlen⟩
  rw [f3]
  exact (List.subperm_of_subset hmap' hsub').length_le.trans hlen

@[simp] lemma mapKeys_stats (s : AppState) (id : String) (u d : Nat) :
    mapKeys (db_update_torrent_stats s id u d) = mapKeys s := rfl

@[simp] lemma mapKeys_access (s : AppState) (id : String) (a n : Nat) :
    mapKeys (db_update_torrent_access s id a n) = mapKeys s := rfl

lemma keys_replace (m : List (String × Handle)) (id : String) (h : Handle) :
    (m.map (fun p => if p.1 == id then (id, h) else p)).map (·.1)
      = m.map (·.1) := by
  rw [List.map_map]
  apply List.map_congr_left
  intro p _
  by_cases hp : p.1 = id <;> simp [Function.comp, hp]

lemma keys_dictSet (m : List (String × Handle)) (id : String) (h : Handle) :
    (dictSet m id h).map (·.1)
      = if id ∈ m.map (·.1) then m.map (·.1) else m.map (·.1) ++ [id] := by
  simp only [dictSet]
  by_cases hmem : id ∈ m.map (·.1)
  · rw [if_pos ((any_fst_eq_mem m id).mpr hmem), if_pos hmem]
    exact keys_replace m id h
  · rw [if_neg (fun hc => hmem ((any_fst_eq_mem m id).mp hc)), if_neg hmem]
    simp

lemma keys_dictSet_nodup (m : List (String × Handle)) (id : String) (h : Handle)
    (hm : (m.map (·.1)).Nodup) : ((dictSet m id h).map (·.1)).Nodup := by
  rw [keys_dictSet]
  by_cases hmem : id ∈ m.map (·.1)
  · rw [if_pos hmem]
    exact hm
  · rw [if_neg hmem]
    simp [List.nodup_append, hm, hmem]

lemma mem_keys_dictSet (m : List (String × Handle)) (id : String) (h : Handle)
    (k : String) (hk : k ∈ (dictSet m id h).map (·.1)) :
    k ∈ m.map (·.1) ∨ k = id := by
  rw [keys_dictSet] at hk
  by_cases hmem : id ∈ m.map (·.1)
  · rw [if_pos hmem] at hk
    exact Or.inl hk
  · rw [if_neg hmem] at hk
    rcases List.mem_append.mp hk with hk | hk
    · exact Or.inl hk
    · exact Or.inr (by simpa using hk)

lemma add_file_sysinv (s : AppState) (id : String) (tu td now : Nat) (eo : Bool)
    (hid : id ∈ catIds s) (hI : SysInv s) :
    SysInv (add_torrent_from_file s id tu td now eo)
    ∧ (add_torrent_from_file s id tu td now eo).maxActive = s.maxActive := by
  obtain ⟨⟨hcat, hmap, hsub⟩, hcard⟩ := hI
  simp only [add_torrent_from_file]
  cases hf : fileLookup s id with
  | none => exact ⟨⟨⟨hcat, hmap, hsub⟩, hcard⟩, rfl⟩
  | some nm =>
    cases eo with
    | false => exact ⟨⟨⟨hcat, hmap, hsub⟩, hcard⟩, rfl⟩
    | true =>
      show SysInv (ensure_memory_limit (db_update_torrent_access
          (db_update_torrent_stats { s with
            torrents_actifs := dictSet s.torrents_actifs id ⟨nm, 0, 0⟩,
            payloads := payloadPut s.payloads nm } id tu td) id 1 now) now)
        ∧ (ensure_memory_limit (db_update_torrent_access
          (db_update_torrent_stats { s with
            torrents_actifs := dictSet s.torrents_actifs id ⟨nm, 0, 0⟩,
            payloads := payloadPut s.payloads nm } id tu td) id 1 now) now).maxActive
          = s.maxActive
      set s1 := { s with
        torrents_actifs := dictSet s.torrents_actifs id ⟨nm, 0, 0⟩,
        payloads := payloadPut s.payloads nm } with hs1
      set s3 := db_update_torrent_access
        (db_update_torrent_stats s1 id tu td) id 1 now with hs3
      have hcat3 : (catIds s3).Nodup := by
        rw [hs3, catIds_access, catIds_stats]
        exact hcat
      have hmap3 : (mapKeys s3).Nodup := by
        have : mapKeys s3 = (dictSet s.torrents_actifs id ⟨nm, 0, 0⟩).map (·.1) := rfl
        rw [this]
        exact keys_dictSet_nodup _ _ _ hmap
      have hsub3 : ∀ k ∈ mapKeys s3, k ∈ db_list_active_torrents s3 := by
        intro k hk
        have hk' : k ∈ (dictSet s.torrents_actifs id ⟨nm, 0, 0⟩).map (·.1) := hk
        rcases mem_keys_dictSet _ _ _ _ hk' with hk2 | rfl
        · have hk3 : k ∈ db_list_active_torrents s := hsub k hk2
          have hk4 : k ∈ db_list_active_torrents (db_update_torrent_stats s1 id tu td) := by
            rw [activeIds_stats]
            exact hk3
          exact mem_activeIds_access_one_of_mem _ id k now hk4
        · apply mem_activeIds_access_one_self
          rw [catIds_stats]
          exact hid
      have hgoal := ensure_sysinv s3 now ⟨hcat3, hmap3, hsub3⟩
      exact ⟨hgoal.1, hgoal.2.1⟩

lemma insert_fresh (s : AppState) (id nm : String) (now : Nat)
    (hnot : id ∉ catIds s) :
    db_insert_torrent s id nm now
      = { s with catalog := s.catalog ++ [⟨id, some nm, 0, 0, now, 1⟩] } := by
  have h : ¬ (s.catalog.any (fun r => r.info_hash == id) = true) :=
    fun hc => hnot ((any_row_eq_mem s.catalog id).mp hc)
  simp only [db_insert_torrent]
  rw [if_neg h]

lemma catIds_append_row (s : AppState) (row : TRow) :
    catIds { s with catalog := s.catalog ++ [row] }
      = catIds s ++ [row.info_hash] := by
  simp [catIds]

lemma activeIds_append_active (s : AppState) (row : TRow) (ha : row.active = 1) :
    db_list_active_torrents { s with catalog := s.catalog ++ [row] }
      = db_list_active_torrents s ++ [row.info_hash] := by
  simp only [db_list_active_torrents, List.filter_append, List.map_append]
  congr 1
  simp [ha]

lemma process_file_sysinv (s : AppState) (o : UploadOracle) (now : Nat)
    (hI : SysInv s) :
    SysInv (process_torrent_file s o now).1
    ∧ (process_torrent_file s o now).1.maxActive = s.maxActive := by
  obtain ⟨mo, pa, eo⟩ := o
  cases mo with
  | false => exact ⟨hI, rfl⟩
  | true =>
    cases pa with
    | none => exact ⟨hI, rfl⟩
    | some q =>
      obtain ⟨id, nm⟩ := q
      by_cases hex : (db_get_torrent s id).isSome = true
      · have hred : process_torrent_file s ⟨true, some (id, nm), eo⟩ now
            = (s, false) := by
          show (if (db_get_torrent s id).isSome = true then (s, false) else _)
            = (s, false)
          rw [if_pos hex]
        rw [hred]
        exact ⟨hI, rfl⟩
      · have hfresh : id ∉ catIds s :=
          fun hmem => hex ((db_get_isSome_iff s id).mpr hmem)
        have hred : process_torrent_file s ⟨true, some (id, nm), eo⟩ now
            = (add_torrent_from_file (db_insert_torrent
                { s with torrent_files := filesPut s.torrent_files id nm }
                id nm now) id 0 0 now eo, true) := by
          show (if (db_get_torrent s id).isSome = true then (s, false) else _) = _
          rw [if_neg hex]
        rw [hred]
        set sF := { s with torrent_files := filesPut s.torrent_files id nm }
        have hIF : SysInv sF := hI
        have hfreshF : id ∉ catIds sF := hfresh
        have hins := insert_fresh sF id nm now hfreshF
        obtain ⟨⟨hcat, hmap, hsub⟩, hcard⟩ := hIF
        have hIins : SysInv (db_insert_torrent sF id nm now) := by
          rw [hins]
          refine ⟨⟨?_, hmap, ?_⟩, hcard⟩
          · rw [catIds_append_row]
            simp [List.nodup_append, hcat, hfreshF]
          · intro k hk
            rw [activeIds_append_active sF _ rfl]
            exact List.mem_append_left _ (hsub k hk)
        have hidins : id ∈ catIds (db_insert_torrent sF id nm now) := by
          rw [hins, catIds_append_row]
          exact List.mem_append_right _ (List.mem_cons_self _ _)
        have hres := add_file_sysinv (db_insert_torrent sF id nm now)
          id 0 0 now eo hidins hIins
        refine ⟨hres.1, hres.2.trans ?_⟩
        rw [hins]

lemma add_torrents_sysinv (s : AppState) (files : List UploadOracle) (now : Nat)
    (hI : SysInv s) :
    SysInv (add_torrents s files now)
    ∧ (add_torrents s files now).maxActive = s.maxActive := by
  induction files generalizing s with
  | nil => exact ⟨hI, rfl⟩
  | cons o fs ih =>
    have h1 := process_file_sysinv s o now hI
    have h2 := ih (process_torrent_file s o now).1 h1.1
    simp only [add_torrents, List.foldl_cons] at h2 ⊢
    exact ⟨h2.1, h2.2.trans h1.2⟩

lemma pause_sysinv (s : AppState) (id : String) (n : Nat) (hI : SysInv s) :
    SysInv (pause_torrent s id n)
    ∧ (pause_torrent s id n).maxActive = s.maxActive := by
  obtain ⟨⟨hcat, hmap, hsub⟩, hcard⟩ := hI
  refine ⟨⟨⟨?_, ?_, ?_⟩, ?_⟩, pause_maxActive s id n⟩
  · rw [catIds_pause]
    exact hcat
  · rw [mapKeys_pause]
    exact hmap.filter _
  · intro k hk
    rw [mapKeys_pause] at hk
    have hk2 := List.mem_filter.mp hk
    rw [activeIds_pause]
    exact List.mem_filter.mpr ⟨hsub k hk2.1, hk2.2⟩
  · rw [mapKeys_pause, pause_maxActive]
    exact le_trans (List.length_filter_le _ _) hcard

lemma stats_sysinv (s : AppState) (id : String) (u d : Nat) (hI : SysInv s) :
    SysInv (db_update_torrent_stats s id u d) := by
  obtain ⟨⟨hcat, hmap, hsub⟩, hcard⟩ := hI
  refine ⟨⟨?_, hmap, ?_⟩, hcard⟩
  · rw [catIds_stats]
    exact hcat
  · intro k hk
    rw [activeIds_stats]
    exact hsub k hk

lemma resume_state_sysinv3 (s : AppState) (id : String) (n : Nat) (eo : Bool)
    (s' : AppState) (hok : resume_torrent s id n eo = .ok s') (hI : SysInv s) :
    SysInv3 s' ∧ s'.maxActive = s.maxActive := by
  obtain ⟨⟨hcat, hmap, hsub⟩, hcard⟩ := hI
  simp only [resume_torrent] at hok
  split at hok
  · exact absurd hok (by simp)
  · rename_i record hget
    have hid : id ∈ catIds s := by
      rw [← db_get_isSome_iff, hget]
      rfl
    split at hok
    · rw [Except.ok.injEq] at hok
      subst hok
      refine ⟨⟨?_, hmap, ?_⟩, rfl⟩
      · rw [catIds_access]
        exact hcat
      · intro k hk
        exact mem_activeIds_access_one_of_mem s id k n (hsub k hk)
    · split at hok
      · exact absurd hok (by simp)
      · rename_i nm hfl
        split at hok
        · rw [Except.ok.injEq] at hok
          subst hok
          refine ⟨⟨?_, ?_, ?_⟩, rfl⟩
          · rw [catIds_access]
            exact hcat
          · exact keys_dictSet_nodup _ _ _ hmap
          · intro k hk
            rcases mem_keys_dictSet _ _ _ _ hk with hk2 | heq
            · exact mem_activeIds_access_one_of_mem
                { s with torrents_actifs := dictSet s.torrents_actifs id ⟨nm, 0, 0⟩,
                         payloads := payloadPut s.payloads nm } id k n (hsub k hk2)
            · rw [heq]
              exact mem_activeIds_access_one_self
                { s with torrents_actifs := dictSet s.torrents_actifs id ⟨nm, 0, 0⟩,
                         payloads := payloadPut s.payloads nm } id n hid
        · rw [Except.ok.injEq] at hok
          subst hok
          exact ⟨⟨hcat, hmap, hsub⟩, rfl⟩

lemma lookupHandle_none_iff (s : AppState) (id : String) :
    lookupHandle s id = none ↔ id ∉ mapKeys s := by
  simp only [lookupHandle, Option.map_eq_none', List.find?_eq_none, mapKeys,
    List.mem_map]
  constructor
  · intro h hmem
    rcases hmem with ⟨p, hp, he⟩
    have := h p hp
    simp at this
    exact this he
  · intro h p hp
    simp only [Bool.not_eq_true, beq_eq_false_iff_ne]
    intro he
    exact h ⟨p, hp, he⟩

lemma ids_filter_comm (l : List TRow) (id : String) :
    (l.filter (fun r => !(r.info_hash == id))).map (·.info_hash)
      = (l.map (·.info_hash)).filter (fun x => !(x == id)) := by
  rw [List.filter_map]
  rfl

lemma activeIds_of_filter_catalog (s t : AppState) (id : String)
    (h : t.catalog = s.catalog.filter (fun r => !(r.info_hash == id))) :
    db_list_active_torrents t
      = (db_list_active_torrents s).filter (fun x => !(x == id)) := by
  simp only [db_list_active_torrents, h]
  rw [List.filter_filter, List.filter_map, List.filter_filter]
  congr 1
  apply List.filter_congr
  intro r _
  simp [Function.comp, Bool.and_comm]

lemma remove_one_catalog (s : AppState) (id : String) (rf : Bool) (record : TRow)
    (hget : db_get_torrent s id = some record) :
    (remove_one s id rf).1.catalog
      = s.catalog.filter (fun r => !(r.info_hash == id)) := by
  simp only [remove_one]
  split
  · rename_i hnone
    rw [hget] at hnone
    exact absurd hnone (by simp)
  · split <;> split <;> rfl

lemma remove_one_mapKeys (s : AppState) (id : String) (rf : Bool) (record : TRow)
    (hget : db_get_torrent s id = some record) :
    mapKeys (remove_one s id rf).1
      = (mapKeys s).filter (fun k => !(k == id)) := by
  simp only [remove_one]
  split
  · rename_i hnone
    rw [hget] at hnone
    exact absurd hnone (by simp)
  · split <;> split <;>
      first
        | exact keys_filter_comm _ _
        | (rename_i hl
           exact (filter_ne_of_not_mem _ _
             ((lookupHandle_none_iff s id).mp hl)).symm)

lemma remove_one_maxActive (s : AppState) (id : String) (rf : Bool) :
    (remove_one s id rf).1.maxActive = s.maxActive := by
  simp only [remove_one]
  split
  · rfl
  · split <;> split <;> rfl

lemma remove_one_sysinv (s : AppState) (id : String) (rf : Bool) (hI : SysInv s) :
    SysInv (remove_one s id rf).1
    ∧ (remove_one s id rf).1.maxActive = s.maxActive := by
  obtain ⟨⟨hcat, hmap, hsub⟩, hcard⟩ := hI
  cases hget : db_get_torrent s id with
  | none =>
    have : (remove_one s id rf).1 = s := by
      simp only [remove_one]
      rw [hget]
    rw [this]
    exact ⟨⟨⟨hcat, hmap, hsub⟩, hcard⟩, rfl⟩
  | some record =>
    have hc := remove_one_catalog s id rf record hget
    have hm := remove_one_mapKeys s id rf record hget
    have hx := remove_one_maxActive s id rf
    have hact := activeIds_of_filter_catalog s (remove_one s id rf).1 id hc
    refine ⟨⟨⟨?_, ?_, ?_⟩, ?_⟩, hx⟩
    · have : catIds (remove_one s id rf).1
          = (catIds s).filter (fun x => !(x == id)) := by
        simp only [catIds, hc]
        exact ids_filter_comm _ _
      rw [this]
      exact hcat.filter _
    · rw [hm]
      exact hmap.filter _
    · intro k hk
      rw [hm] at hk
      have hk2 := List.mem_filter.mp hk
      rw [hact]
      exact List.mem_filter.mpr ⟨hsub k hk2.1, hk2.2⟩
    · rw [hm, hx]
      exact le_trans (List.length_filter_le _ _) hcard


lemma foldl_preserve {α β : Type} (f : α → β → α) (P : α → Prop)
    (hf : ∀ a b, P a → P (f a b)) :
    ∀ (l : List β) (a : α), P a → P (l.foldl f a) := by
  intro l
  induction l with
  | nil => intro a h; exact h
  | cons x xs ih =>
    intro a h
    exact ih _ (hf a x h)

lemma remove_torrents_sysinv (s : AppState) (ids : List String) (rf : Bool)
    (hI : SysInv s) :
    SysInv (remove_torrents s ids rf).1
    ∧ (remove_torrents s ids rf).1.maxActive = s.maxActive := by
  have h := foldl_preserve
    (fun (acc : AppState × List String × List String) id =>
      let r := remove_one acc.1 id rf
      if r.2 then (r.1, acc.2.1 ++ [id], acc.2.2)
      else (acc.1, acc.2.1, acc.2.2 ++ [id]))
    (fun acc => SysInv acc.1 ∧ acc.1.maxActive = s.maxActive)
    (by
      intro a b hP
      obtain ⟨hIa, hxa⟩ := hP
      show SysInv (if (remove_one a.1 b rf).2 = true
          then ((remove_one a.1 b rf).1, a.2.1 ++ [b], a.2.2)
          else (a.1, a.2.1, a.2.2 ++ [b])).1
        ∧ (if (remove_one a.1 b rf).2 = true
          then ((remove_one a.1 b rf).1, a.2.1 ++ [b], a.2.2)
          else (a.1, a.2.1, a.2.2 ++ [b])).1.maxActive = s.maxActive
      by_cases hc : (remove_one a.1 b rf).2 = true
      · rw [if_pos hc]
        have h1 := remove_one_sysinv a.1 b rf hIa
        exact ⟨h1.1, h1.2.trans hxa⟩
      · rw [if_neg hc]
        exact ⟨hIa, hxa⟩)
    ids (s, [], []) ⟨hI, rfl⟩
  exact h

lemma shutdown_sysinv (s : AppState) (hI : SysInv s) :
    SysInv (shutdown_event s) ∧ (shutdown_event s).maxActive = s.maxActive := by
  exact foldl_preserve
    (fun acc (p : String × Handle) => db_update_torrent_stats acc p.1 p.2.up p.2.down)
    (fun t => SysInv t ∧ t.maxActive = s.maxActive)
    (fun a b hP => ⟨stats_sysinv a b.1 b.2.up b.2.down hP.1, hP.2⟩)
    s.torrents_actifs s ⟨hI, rfl⟩

lemma startup_sysinv (s : AppState) (now : Nat) (engineFail : List String)
    (hI : SysInv s) :
    SysInv (startup_event s now engineFail)
    ∧ (startup_event s now engineFail).maxActive = s.maxActive := by
  obtain ⟨⟨hcat, _, _⟩, _⟩ := hI
  have h0 : SysInv { s with torrents_actifs := [] } := by
    refine ⟨⟨hcat, List.nodup_nil, ?_⟩, ?_⟩
    · intro k hk
      simp [mapKeys] at hk
    · show ([] : List String).length ≤ s.maxActive
      simp
  exact foldl_preserve
    (fun acc h =>
      match db_get_torrent acc h with
      | none => acc
      | some record =>
        match fileLookup acc h with
        | some _ =>
          add_torrent_from_file acc h record.total_uploaded
            record.total_downloaded now (!(engineFail.contains h))
        | none => acc)
    (fun t => SysInv t ∧ t.maxActive = s.maxActive)
    (by
      intro a b hP
      obtain ⟨hIa, hxa⟩ := hP
      show (fun t => SysInv t ∧ t.maxActive = s.maxActive)
        (match db_get_torrent a b with
          | none => a
          | some record =>
            match fileLookup a b with
            | some _ =>
              add_torrent_from_file a b record.total_uploaded
                record.total_downloaded now (!(engineFail.contains b))
            | none => a)
      cases hget : db_get_torrent a b with
      | none => exact ⟨hIa, hxa⟩
      | some record =>
        cases hfl : fileLookup a b with
        | none => exact ⟨hIa, hxa⟩
        | some nm =>
          have hid : b ∈ catIds a := by
            rw [← db_get_isSome_iff, hget]
            rfl
          have h1 := add_file_sysinv a b record.total_uploaded
            record.total_downloaded now (!(engineFail.contains b)) hid hIa
          exact ⟨h1.1, h1.2.trans hxa⟩)
    (db_list_active_torrents { s with torrents_actifs := [] })
    { s with torrents_actifs := [] } ⟨h0, rfl⟩

lemma mapKeys_tick (s : AppState) (ds : List (String × Nat × Nat)) :
    mapKeys (tick s ds) = mapKeys s := by
  simp only [mapKeys, tick, List.map_map]
  apply List.map_congr_left
  intro p _
  simp only [Function.comp]
  cases hfind : ds.find? (fun q => q.1 == p.1) <;> rfl

lemma tick_sysinv (s : AppState) (ds : List (String × Nat × Nat)) (hI : SysInv s) :
    SysInv (tick s ds) ∧ (tick s ds).maxActive = s.maxActive := by
  obtain ⟨⟨hcat, hmap, hsub⟩, hcard⟩ := hI
  refine ⟨⟨⟨hcat, ?_, ?_⟩, ?_⟩, rfl⟩
  · rw [mapKeys_tick]
    exact hmap
  · intro k hk
    rw [mapKeys_tick] at hk
    exact hsub k hk
  · rw [mapKeys_tick]
    exact hcard

lemma step_sysinv (s : AppState) (op : Op) (hI : SysInv s) :
    SysInv (step s op) ∧ (step s op).maxActive = s.maxActive := by
  cases op with
  | add files now => exact add_torrents_sysinv s files now hI
  | pause id now =>
    simp only [step]
    cases he : pause_torrent_endpoint s id now with
    | error e => exact ⟨hI, rfl⟩
    | ok r =>
      show SysInv r.1 ∧ r.1.maxActive = s.maxActive
      have hcases : r.1 = s ∨ r.1 = pause_torrent s id now := by
        simp only [pause_torrent_endpoint] at he
        split at he
        · exact absurd he (by simp)
        · split at he
          · rw [Except.ok.injEq] at he
            exact Or.inl (by rw [← he])
          · rw [Except.ok.injEq] at he
            exact Or.inr (by rw [← he])
      rcases hcases with h | h <;> rw [h]
      · exact ⟨hI, rfl⟩
      · exact pause_sysinv s id now hI
  | resume id now eo =>
    simp only [step, resume_torrent_endpoint]
    cases hr : resume_torrent s id now eo with
    | error e => exact ⟨hI, rfl⟩
    | ok s1 =>
      have h3 := resume_state_sysinv3 s id now eo s1 hr hI
      have hg := ensure_sysinv s1 now h3.1
      exact ⟨hg.1, hg.2.1.trans h3.2⟩
  | remove ids rf => exact remove_torrents_sysinv s ids rf hI
  | startup now ef => exact startup_sysinv s now ef hI
  | shutdown => exact shutdown_sysinv s hI
  | tick ds => exact tick_sysinv s ds hI

lemma run_sysinv (s : AppState) (ops : List Op) (hI : SysInv s) :
    SysInv (run s ops) ∧ (run s ops).maxActive = s.maxActive := by
  induction ops generalizing s with
  | nil => exact ⟨hI, rfl⟩
  | cons op ops ih =>
    have h1 := step_sysinv s op hI
    have h2 := ih (step s op) h1.1
    simp only [run, List.foldl_cons] at h2 ⊢
    exact ⟨h2.1, h2.2.trans h1.2⟩

lemma initState_sysinv (C : Nat) : SysInv (initState C) := by
  refine ⟨⟨List.nodup_nil, List.nodup_nil, ?_⟩, ?_⟩
  · intro k hk
    simp [mapKeys, initState] at hk
  · show ([] : List String).length ≤ C
    simp

lemma db_get_of_mem_nodup : ∀ (l : List TRow) (r : TRow),
    (l.map (·.info_hash)).Nodup → r ∈ l →
    l.find? (fun x => x.info_hash == r.info_hash) = some r := by
  intro l
  induction l with
  | nil =>
    intro r _ hr
    simp at hr
  | cons x l ih =>
    intro r hnd hr
    simp only [List.map_cons, List.nodup_cons] at hnd
    rcases List.mem_cons.mp hr with rfl | hr2
    · rw [List.find?_cons_of_pos _ (by simp)]
    · have hx : (x.info_hash == r.info_hash) = false := by
        rw [beq_eq_false_iff_ne]
        intro heq
        exact hnd.1 (heq ▸ List.mem_map.mpr ⟨r, hr2, rfl⟩)
      rw [List.find?_cons, hx]
      exact ih r hnd.2 hr2

/-- C1: starting from a fresh installation with configured capacity `C`,
after any sequence of completed public operations (adds — also multi-file
batches — pauses, resumes, removes, startup reconciliations, shutdown
flushes, engine progress), the in-memory active set `torrents_actifs` holds
at most `C` handles.  Quantifying over every operation list covers the state
after each individual operation of any run. -/
theorem active_set_bounded_by_capacity (C : Nat) (ops : List Op) :
    (mapKeys (run (initState C) ops)).length ≤ C := by
  have h := run_sysinv (initState C) ops (initState_sysinv C)
  have hcard := h.1.2
  rw [h.2] at hcard
  exact hcard

/-- C2 (amended, the direction that does hold): after any sequence of
completed public operations from a fresh installation, every id holding a
live handle in `torrents_actifs` has a catalog row with `active = 1`.  (The
converse direction of the claimed iff is refuted by
`residency_iff_cex`.) -/
theorem resident_handle_has_active_row (C : Nat) (ops : List Op) (k : String)
    (hk : k ∈ mapKeys (run (initState C) ops)) :
    ∃ r, db_get_torrent (run (initState C) ops) k = some r ∧ r.active = 1 := by
  obtain ⟨⟨hcat, hmap, hsub⟩, _⟩ := (run_sysinv (initState C) ops (initState_sysinv C)).1
  have hk2 := hsub k hk
  simp only [db_list_active_torrents, List.mem_map, List.mem_filter] at hk2
  rcases hk2 with ⟨r, ⟨hrmem, hract⟩, hrhash⟩
  refine ⟨r, ?_, by simpa using hract⟩
  have hfind := db_get_of_mem_nodup (run (initState C) ops).catalog r hcat hrmem
  simp only [db_get_torrent]
  rw [← hrhash]
  exact hfind

/-- Witness for C2's amended theorem at a concrete run: one successful add
with capacity 1 leaves "a" resident with an active catalog row. -/
theorem resident_handle_has_active_row_witness :
    "a" ∈ mapKeys (run (initState 1) [Op.add [⟨true, some ("a", "na"), true⟩] 0])
    ∧ ∃ r, db_get_torrent
        (run (initState 1) [Op.add [⟨true, some ("a", "na"), true⟩] 0]) "a"
        = some r ∧ r.active = 1 :=
  ⟨by decide,
   resident_handle_has_active_row 1 [Op.add [⟨true, some ("a", "na"), true⟩] 0]
     "a" (by decide)⟩

/-- C2 counterexample: the completed add operation whose engine load fails
leaves the catalog row of "h2" with `active = 1` while "h2" holds no handle
in `torrents_actifs`, so "active = 1 iff resident after every completed
operation" is false on the code. -/
theorem residency_iff_cex :
    ((db_get_torrent (run (initState 1)
        [Op.add [⟨true, some ("h2", "n2"), false⟩] 0]) "h2").map (·.active)
      = some 1)
    ∧ "h2" ∉ mapKeys (run (initState 1)
        [Op.add [⟨true, some ("h2", "n2"), false⟩] 0]) := by
  constructor
  · decide
  · decide

lemma find_replace (fs : List (String × String)) (id nm : String)
    (hmem : id ∈ fs.map (·.1)) :
    ((fs.map (fun p => if p.1 == id then (id, nm) else p)).find?
      (fun p => p.1 == id)).map (·.2) = some nm := by
  induction fs with
  | nil => simp at hmem
  | cons p fs ih =>
    by_cases hp : p.1 = id
    · simp [hp]
    · have hmem2 : id ∈ fs.map (·.1) := by
        rcases List.mem_map.mp hmem with ⟨q, hq, he⟩
        rcases List.mem_cons.mp hq with rfl | hq2
        · exact absurd he hp
        · exact List.mem_map.mpr ⟨q, hq2, he⟩
      simpa [hp] using ih hmem2

lemma find_append_fresh (fs : List (String × String)) (id nm : String)
    (hmem : id ∉ fs.map (·.1)) :
    ((fs ++ [(id, nm)]).find? (fun p => p.1 == id)).map (·.2) = some nm := by
  induction fs with
  | nil => simp
  | cons p fs ih =>
    have hp : ¬ p.1 = id :=
      fun he => hmem (List.mem_map.mpr ⟨p, List.mem_cons_self _ _, he⟩)
    have hmem2 : id ∉ fs.map (·.1) :=
      fun h2 => hmem (List.mem_cons_of_mem _ h2)
    simpa [hp] using ih hmem2

lemma filesPut_lookup (fs : List (String × String)) (id nm : String) :
    ((filesPut fs id nm).find? (fun p => p.1 == id)).map (·.2) = some nm := by
  simp only [filesPut]
  by_cases hmem : id ∈ fs.map (·.1)
  · rw [if_pos ((any_fst_eq_mem fs id).mpr hmem)]
    exact find_replace fs id nm hmem
  · rw [if_neg (fun hc => hmem ((any_fst_eq_mem fs id).mp hc))]
    exact find_append_fresh fs id nm hmem

lemma find_row_append_fresh (l : List TRow) (row : TRow)
    (hmem : row.info_hash ∉ l.map (·.info_hash)) :
    (l ++ [row]).find? (fun r => r.info_hash == row.info_hash) = some row := by
  induction l with
  | nil => simp
  | cons x l ih =>
    have hp : ¬ x.info_hash = row.info_hash :=
      fun he => hmem (List.mem_map.mpr ⟨x, List.mem_cons_self _ _, he⟩)
    have hmem2 : row.info_hash ∉ l.map (·.info_hash) :=
      fun h2 => hmem (List.mem_cons_of_mem _ h2)
    simpa [hp] using ih hmem2

lemma mem_catIds_of_mem_activeIds (s : AppState) (k : String)
    (hk : k ∈ db_list_active_torrents s) : k ∈ catIds s := by
  simp only [db_list_active_torrents, List.mem_map, List.mem_filter] at hk
  rcases hk with ⟨r, ⟨hmem, _⟩, hh⟩
  exact List.mem_map.mpr ⟨r, hmem, hh⟩

/-- C3 (amended): in `resume_torrent` the residency flag is written only
after a successful engine load — a failing load leaves the state untouched —
but in the add path the catalog row is created with residency already
`active` before the engine load, so when the load fails a catalog row
claiming residency survives the completed operation (the original claim's
"never before / no surviving write" is refuted by
`residency_write_order_cex`). -/
theorem residency_write_order (s : AppState) (id nm : String) (now : Nat)
    (r : TRow) (hI : SysInv s) :
    (db_get_torrent s id = some r →
      ¬ (r.active == 1 && mapHasKey s id) = true →
      (∃ b, fileLookup s id = some b) →
      resume_torrent s id now false = .ok s)
    ∧ (db_get_torrent s id = none →
      db_get_torrent (process_torrent_file s ⟨true, some (id, nm), false⟩ now).1 id
        = some ⟨id, some nm, 0, 0, now, 1⟩
      ∧ id ∉ mapKeys (process_torrent_file s ⟨true, some (id, nm), false⟩ now).1) := by
  constructor
  · rintro hget hnact ⟨b, hfl⟩
    simp only [resume_torrent]
    rw [hget]
    show (if (r.active == 1 && mapHasKey s id) = true
        then Except.ok (db_update_torrent_access s id 1 now)
        else match fileLookup s id with
          | none => Except.error 404
          | some nm =>
            if (false : Bool) = true then
              Except.ok (db_update_torrent_access
                { s with
                  torrents_actifs := dictSet s.torrents_actifs id ⟨nm, 0, 0⟩,
                  payloads := payloadPut s.payloads nm } id 1 now)
            else Except.ok s)
      = Except.ok s
    rw [if_neg hnact, hfl]
    show (if (false : Bool) = true then _ else Except.ok s) = Except.ok s
    rw [if_neg Bool.false_ne_true]
  · intro hget
    have hfresh : id ∉ catIds s := (db_get_eq_none_iff s id).mp hget
    have hmapnot : id ∉ mapKeys s := by
      intro hmem
      obtain ⟨⟨_, _, hsub⟩, _⟩ := hI
      exact hfresh (mem_catIds_of_mem_activeIds s id (hsub id hmem))
    have hred : (process_torrent_file s ⟨true, some (id, nm), false⟩ now).1
        = add_torrent_from_file (db_insert_torrent
            { s with torrent_files := filesPut s.torrent_files id nm }
            id nm now) id 0 0 now false := by
      show ((if (db_get_torrent s id).isSome = true then (s, false)
          else (add_torrent_from_file (db_insert_torrent
            { s with torrent_files := filesPut s.torrent_files id nm }
            id nm now) id 0 0 now false, true)) : AppState × Bool).1
        = _
      rw [hget]
      rfl
    set sF := { s with torrent_files := filesPut s.torrent_files id nm } with hsF
    have hins := insert_fresh sF id nm now hfresh
    have hflP : fileLookup (db_insert_torrent sF id nm now) id = some nm := by
      have : (db_insert_torrent sF id nm now).torrent_files
          = filesPut s.torrent_files id nm := by
        rw [hins]
      simp only [fileLookup, this]
      exact filesPut_lookup s.torrent_files id nm
    have hred2 : add_torrent_from_file (db_insert_torrent sF id nm now)
        id 0 0 now false = db_insert_torrent sF id nm now := by
      simp only [add_torrent_from_file]
      rw [hflP]
      rfl
    rw [hred, hred2]
    constructor
    · rw [hins]
      show (sF.catalog ++ [(⟨id, some nm, 0, 0, now, 1⟩ : TRow)]).find?
          (fun x => x.info_hash == id) = some (⟨id, some nm, 0, 0, now, 1⟩ : TRow)
      exact find_row_append_fresh sF.catalog ⟨id, some nm, 0, 0, now, 1⟩ hfresh
    · rw [hins]
      exact hmapnot

/-- C3 counterexample: a completed add whose engine load fails ends with the
catalog row of "h3" created as `active = 1` before the load and surviving
it, while "h3" holds no handle. -/
theorem residency_write_order_cex :
    db_get_torrent (run (initState 2)
        [Op.add [⟨true, some ("h3", "n3"), false⟩] 0]) "h3"
      = some ⟨"h3", some "n3", 0, 0, 0, 1⟩
    ∧ "h3" ∉ mapKeys (run (initState 2)
        [Op.add [⟨true, some ("h3", "n3"), false⟩] 0]) := by
  constructor
  · decide
  · decide

/-- Witness for C3's amended theorem: in a reachable state where "y" is
paused with its blob archived, a resume whose engine load fails returns
normally with the state unchanged (no catalog write at all). -/
theorem residency_write_order_witness :
    SysInv (run (initState 2)
      [Op.add [⟨true, some ("y", "ny"), true⟩] 0, Op.pause "y" 1])
    ∧ resume_torrent (run (initState 2)
        [Op.add [⟨true, some ("y", "ny"), true⟩] 0, Op.pause "y" 1]) "y" 5 false
      = .ok (run (initState 2)
        [Op.add [⟨true, some ("y", "ny"), true⟩] 0, Op.pause "y" 1]) :=
  ⟨⟨⟨by decide, by decide, by decide⟩, by decide⟩,
   (residency_write_order (run (initState 2)
      [Op.add [⟨true, some ("y", "ny"), true⟩] 0, Op.pause "y" 1])
      "y" "ny" 5 ⟨"y", some "ny", 0, 0, 1, 0⟩
      ⟨⟨by decide, by decide, by decide⟩, by decide⟩).1
    (by decide) (by decide) ⟨"ny", by decide⟩⟩

lemma evictLoop_noop (now : Nat) (s : AppState) (l : List String)
    (h : l.length ≤ s.maxActive) : evictLoop now s l = s := by
  cases l with
  | nil => rfl
  | cons x xs =>
    rw [evictLoop, if_neg]
    simp only [List.length_cons] at h
    omega

/-- A hand-written state one over capacity: A, B, C active with
`last_access` 0, 1, 2 and capacity 2 — the state `ensure_memory_limit`
faces just after the third admission. -/
def lruScenarioState : AppState :=
  { catalog := [⟨"A", some "nA", 0, 0, 0, 1⟩, ⟨"B", some "nB", 0, 0, 1, 1⟩,
                ⟨"C", some "nC", 0, 0, 2, 1⟩],
    torrents_actifs := [("A", ⟨"nA", 0, 0⟩), ("B", ⟨"nB", 0, 0⟩),
                        ("C", ⟨"nC", 0, 0⟩)],
    torrent_files := [("A", "nA"), ("B", "nB"), ("C", "nC")],
    payloads := ["nA", "nB", "nC"],
    maxActive := 2,
    flushLog := [] }

/-- C4: when the active rows are one over capacity, `ensure_memory_limit`
evicts exactly one victim `v`: an active id whose durable `last_access`
(read from the catalog, the `lruKey`) is minimal, and which appears in the
rowid-ordered active list strictly before every other id of equal key —
oldest `last_access` wins, ties broken by oldest rowid.  The concrete
C = 2, A-B-C scenario is checked in the witness. -/
theorem ensure_evicts_lru (s : AppState) (now : Nat)
    (hlen : (db_list_active_torrents s).length = s.maxActive + 1) :
    ∃ v, ensure_memory_limit s now = pause_torrent s v now
      ∧ v ∈ db_list_active_torrents s
      ∧ (∀ u ∈ db_list_active_torrents s, lruKey s v ≤ lruKey s u)
      ∧ ∃ l1 l2, db_list_active_torrents s = l1 ++ v :: l2
          ∧ ∀ u ∈ l1, lruKey s v < lruKey s u := by
  have hslen : (sortByKey (lruKey s) (db_list_active_torrents s)).length
      = s.maxActive + 1 := by
    rw [sortByKey_length]
    exact hlen
  cases hL : sortByKey (lruKey s) (db_list_active_torrents s) with
  | nil =>
    rw [hL] at hslen
    simp at hslen
  | cons v rest =>
    have hrest : rest.length = s.maxActive := by
      rw [hL] at hslen
      simpa using hslen
    have hfm : firstMin (lruKey s) (db_list_active_torrents s) = some v := by
      rw [← sortByKey_head_firstMin, hL]
      rfl
    refine ⟨v, ?_, firstMin_mem _ _ _ hfm, firstMin_le _ _ _ hfm,
      firstMin_split _ _ _ hfm⟩
    show evictLoop now s (sortByKey (lruKey s) (db_list_active_torrents s)) = _
    rw [hL, evictLoop, if_pos (by omega)]
    exact evictLoop_noop now (pause_torrent s v now) rest
      (by rw [pause_maxActive]; omega)

/-- Witness for C4 at the concrete scenario: the one-over-capacity state has
its LRU victim, and in the actual run (capacity 2, A, B, C added at times
0, 1, 2 with no pauses) the eviction hits A while B and C stay resident. -/
theorem ensure_evicts_lru_witness :
    ((db_list_active_torrents lruScenarioState).length
        = lruScenarioState.maxActive + 1
      ∧ ∃ v, ensure_memory_limit lruScenarioState 2
            = pause_torrent lruScenarioState v 2
          ∧ v ∈ db_list_active_torrents lruScenarioState
          ∧ (∀ u ∈ db_list_active_torrents lruScenarioState,
              lruKey lruScenarioState v ≤ lruKey lruScenarioState u)
          ∧ ∃ l1 l2, db_list_active_torrents lruScenarioState = l1 ++ v :: l2
              ∧ ∀ u ∈ l1, lruKey lruScenarioState v < lruKey lruScenarioState u)
    ∧ ensure_memory_limit lruScenarioState 2
        = pause_torrent lruScenarioState "A" 2
    ∧ mapKeys (run (initState 2) [Op.add [⟨true, some ("A", "nA"), true⟩] 0,
        Op.add [⟨true, some ("B", "nB"), true⟩] 1,
        Op.add [⟨true, some ("C", "nC"), true⟩] 2]) = ["B", "C"]
    ∧ ((db_get_torrent (run (initState 2)
          [Op.add [⟨true, some ("A", "nA"), true⟩] 0,
           Op.add [⟨true, some ("B", "nB"), true⟩] 1,
           Op.add [⟨true, some ("C", "nC"), true⟩] 2]) "A").map (·.active)
        = some 0) :=
  ⟨⟨by decide, ensure_evicts_lru lruScenarioState 2 (by decide)⟩,
   by decide, by decide, by decide⟩

lemma find?_map_pres (l : List TRow) (f : TRow → TRow) (id : String)
    (hh : ∀ r, (f r).info_hash = r.info_hash) :
    (l.map f).find? (fun r => r.info_hash == id)
      = (l.find? (fun r => r.info_hash == id)).map f := by
  induction l with
  | nil => rfl
  | cons x l ih =>
    by_cases hx : x.info_hash = id
    · simp [List.find?_cons, hh, hx]
    · simp [List.find?_cons, hh, hx, ih]

lemma pause_catalog (s : AppState) (id : String) (n : Nat) :
    (pause_torrent s id n).catalog
      = s.catalog.map (fun r => if r.info_hash == id then
          { r with last_access := n, active := 0 } else r) := by
  simp only [pause_torrent]
  split <;> rfl

lemma db_get_pause_self (s : AppState) (id : String) (n : Nat) (record : TRow)
    (hget : db_get_torrent s id = some record) :
    db_get_torrent (pause_torrent s id n) id
      = some { record with last_access := n, active := 0 } := by
  have hh : ∀ r : TRow, ((fun r => if r.info_hash == id then
      { r with last_access := n, active := 0 } else r) r).info_hash
      = r.info_hash := by
    intro r
    by_cases h : r.info_hash = id <;> simp [h]
  show (pause_torrent s id n).catalog.find? (fun r => r.info_hash == id) = _
  rw [pause_catalog, find?_map_pres _ _ _ hh]
  have hid : record.info_hash = id := (db_get_mem s id record hget).2
  rw [show s.catalog.find? (fun r => r.info_hash == id) = some record from hget]
  simp [hid]

/-- C6: for an id known to the catalog, pausing twice through the endpoint
yields exactly the same state as pausing once — the second call finds the
row already inactive, performs no write at all, and reports success (the
no-op flag), not an error. -/
theorem pause_idempotent (s : AppState) (id : String) (n1 n2 : Nat)
    (h : (db_get_torrent s id).isSome = true) :
    ∃ s1 b, pause_torrent_endpoint s id n1 = .ok (s1, b)
      ∧ pause_torrent_endpoint s1 id n2 = .ok (s1, false) := by
  cases hget : db_get_torrent s id with
  | none =>
    rw [hget] at h
    simp at h
  | some record =>
    by_cases hact : (record.active == 0) = true
    · refine ⟨s, false, ?_, ?_⟩ <;>
        (simp only [pause_torrent_endpoint]
         rw [hget]
         show (if (record.active == 0) = true then Except.ok (s, false)
             else Except.ok (pause_torrent s id _, true)) = Except.ok (s, false)
         rw [if_pos hact])
    · refine ⟨pause_torrent s id n1, true, ?_, ?_⟩
      · simp only [pause_torrent_endpoint]
        rw [hget]
        show (if (record.active == 0) = true then Except.ok (s, false)
            else Except.ok (pause_torrent s id n1, true))
          = Except.ok (pause_torrent s id n1, true)
        rw [if_neg hact]
      · have hget2 := db_get_pause_self s id n1 record hget
        simp only [pause_torrent_endpoint]
        rw [hget2]
        show (if (({ record with last_access := n1, active := 0 } : TRow).active
              == 0) = true
            then Except.ok (pause_torrent s id n1, false)
            else Except.ok (pause_torrent (pause_torrent s id n1) id n2, true))
          = Except.ok (pause_torrent s id n1, false)
        rw [if_pos (by simp)]

/-- Witness for C6 on a reachable state: "y" was added and is resident;
pausing twice equals pausing once and the second call succeeds as a no-op. -/
theorem pause_idempotent_witness :
    ((db_get_torrent (run (initState 2)
        [Op.add [⟨true, some ("y", "ny"), true⟩] 0]) "y").isSome = true)
    ∧ ∃ s1 b, pause_torrent_endpoint (run (initState 2)
          [Op.add [⟨true, some ("y", "ny"), true⟩] 0]) "y" 1 = .ok (s1, b)
        ∧ pause_torrent_endpoint s1 "y" 2 = .ok (s1, false) :=
  ⟨by decide,
   pause_idempotent (run (initState 2)
     [Op.add [⟨true, some ("y", "ny"), true⟩] 0]) "y" 1 2 (by decide)⟩

lemma remove_one_none (s : AppState) (id : String) (rf : Bool)
    (hget : db_get_torrent s id = none) : remove_one s id rf = (s, false) := by
  simp only [remove_one]
  rw [hget]

lemma remove_one_snd_true (s : AppState) (id : String) (rf : Bool)
    (record : TRow) (hget : db_get_torrent s id = some record) :
    (remove_one s id rf).2 = true := by
  simp only [remove_one]
  split
  · rename_i hnone
    rw [hget] at hnone
    exact absurd hnone (by simp)
  · rfl

lemma remove_one_false (s : AppState) (id : String) (rf : Bool)
    (h : (remove_one s id rf).2 = false) : (remove_one s id rf).1 = s := by
  cases hget : db_get_torrent s id with
  | none => rw [remove_one_none s id rf hget]
  | some record =>
    rw [remove_one_snd_true s id rf record hget] at h
    exact absurd h (by simp)

lemma remove_single (s : AppState) (id : String) (rf : Bool) :
    (remove_torrents s [id] rf).1 = (remove_one s id rf).1 := by
  show (if (remove_one s id rf).2 = true
      then ((remove_one s id rf).1, ([] : List String) ++ [id],
            ([] : List String))
      else (s, ([] : List String), ([] : List String) ++ [id])).1
    = (remove_one s id rf).1
  by_cases h : (remove_one s id rf).2 = true
  · rw [if_pos h]
  · rw [if_neg h]
    exact (remove_one_false s id rf (by simpa using h)).symm

lemma remove_one_files (s : AppState) (id : String) (rf : Bool) (record : TRow)
    (hget : db_get_torrent s id = some record) :
    (remove_one s id rf).1.torrent_files
      = s.torrent_files.filter (fun p => !(p.1 == id)) := by
  simp only [remove_one]
  split
  · rename_i hnone
    rw [hget] at hnone
    exact absurd hnone (by simp)
  · split <;> split <;> rfl

lemma find_filter_none (l : List TRow) (id : String) :
    (l.filter (fun r => !(r.info_hash == id))).find?
      (fun r => r.info_hash == id) = none := by
  rw [List.find?_eq_none]
  intro x hx
  have h2 := (List.mem_filter.mp hx).2
  simp only [Bool.not_eq_true'] at h2
  simp [h2]

lemma find_filter_none_pair (l : List (String × String)) (id : String) :
    (l.filter (fun p => !(p.1 == id))).find? (fun p => p.1 == id) = none := by
  rw [List.find?_eq_none]
  intro x hx
  have h2 := (List.mem_filter.mp hx).2
  simp only [Bool.not_eq_true'] at h2
  simp [h2]

/-- C7: removing an id that is in the catalog deletes both its archived
descriptor (`{id}.torrent`) and its catalog row, drops any handle, and any
subsequent `resume` on that id fails with 404 NotFound; `db_get_torrent`
returning `none` is the NotFound result of the catalog `get`. -/
theorem remove_roundtrip (s : AppState) (id : String) (rf : Bool)
    (h : (db_get_torrent s id).isSome = true) :
    db_get_torrent (remove_torrents s [id] rf).1 id = none
    ∧ fileLookup (remove_torrents s [id] rf).1 id = none
    ∧ id ∉ mapKeys (remove_torrents s [id] rf).1
    ∧ ∀ n eo, resume_torrent (remove_torrents s [id] rf).1 id n eo
        = .error 404 := by
  cases hget : db_get_torrent s id with
  | none =>
    rw [hget] at h
    simp at h
  | some record =>
    have hcat := remove_one_catalog s id rf record hget
    have hfiles := remove_one_files s id rf record hget
    have hkeys := remove_one_mapKeys s id rf record hget
    rw [remove_single]
    have hg : db_get_torrent (remove_one s id rf).1 id = none := by
      show (remove_one s id rf).1.catalog.find? (fun r => r.info_hash == id)
        = none
      rw [hcat]
      exact find_filter_none s.catalog id
    refine ⟨hg, ?_, ?_, ?_⟩
    · show ((remove_one s id rf).1.torrent_files.find?
          (fun p => p.1 == id)).map (·.2) = none
      rw [hfiles, find_filter_none_pair]
      rfl
    · rw [hkeys]
      intro hmem
      have := (List.mem_filter.mp hmem).2
      simp at this
    · intro n eo
      simp only [resume_torrent]
      rw [hg]

/-- Witness for C7: add "y", then remove it; the row, the blob and the
handle are gone and resume answers 404. -/
theorem remove_roundtrip_witness :
    ((db_get_torrent (run (initState 2)
        [Op.add [⟨true, some ("y", "ny"), true⟩] 0]) "y").isSome = true)
    ∧ (db_get_torrent (remove_torrents (run (initState 2)
          [Op.add [⟨true, some ("y", "ny"), true⟩] 0]) ["y"] false).1 "y" = none
      ∧ fileLookup (remove_torrents (run (initState 2)
          [Op.add [⟨true, some ("y", "ny"), true⟩] 0]) ["y"] false).1 "y" = none
      ∧ "y" ∉ mapKeys (remove_torrents (run (initState 2)
          [Op.add [⟨true, some ("y", "ny"), true⟩] 0]) ["y"] false).1
      ∧ ∀ n eo, resume_torrent (remove_torrents (run (initState 2)
          [Op.add [⟨true, some ("y", "ny"), true⟩] 0]) ["y"] false).1 "y" n eo
          = .error 404) :=
  ⟨by decide,
   remove_roundtrip (run (initState 2)
     [Op.add [⟨true, some ("y", "ny"), true⟩] 0]) "y" false (by decide)⟩

lemma resume_engine_fail_noop (s : AppState) (id : String) (now : Nat)
    (r : TRow) (hget : db_get_torrent s id = some r)
    (hnact : ¬ (r.active == 1 && mapHasKey s id) = true)
    (b : String) (hfl : fileLookup s id = some b) :
    resume_torrent s id now false = .ok s := by
  simp only [resume_torrent]
  rw [hget]
  show (if (r.active == 1 && mapHasKey s id) = true
      then Except.ok (db_update_torrent_access s id 1 now)
      else match fileLookup s id with
        | none => Except.error 404
        | some nm =>
          if (false : Bool) = true then
            Except.ok (db_update_torrent_access
              { s with
                torrents_actifs := dictSet s.torrents_actifs id ⟨nm, 0, 0⟩,
                payloads := payloadPut s.payloads nm } id 1 now)
          else Except.ok s)
    = Except.ok s
  rw [if_neg hnact, hfl]
  show (if (false : Bool) = true then _ else Except.ok s) = Except.ok s
  rw [if_neg Bool.false_ne_true]

lemma resume_blob_missing (s : AppState) (id : String) (now : Nat) (eo : Bool)
    (r : TRow) (hget : db_get_torrent s id = some r)
    (hnact : ¬ (r.active == 1 && mapHasKey s id) = true)
    (hfl : fileLookup s id = none) :
    resume_torrent s id now eo = .error 404 := by
  simp only [resume_torrent]
  rw [hget]
  show (if (r.active == 1 && mapHasKey s id) = true
      then Except.ok (db_update_torrent_access s id 1 now)
      else match fileLookup s id with
        | none => Except.error 404
        | some nm =>
          if eo = true then
            Except.ok (db_update_torrent_access
              { s with
                torrents_actifs := dictSet s.torrents_actifs id ⟨nm, 0, 0⟩,
                payloads := payloadPut s.payloads nm } id 1 now)
          else Except.ok s)
    = Except.error 404
  rw [if_neg hnact, hfl]

lemma db_get_pause_ne (s : AppState) (v : String) (n : Nat) (id : String)
    (hne : v ≠ id) :
    db_get_torrent (pause_torrent s v n) id = db_get_torrent s id := by
  have hh : ∀ r : TRow, ((fun r => if r.info_hash == v then
      { r with last_access := n, active := 0 } else r) r).info_hash
      = r.info_hash := by
    intro r
    by_cases h : r.info_hash = v <;> simp [h]
  show (pause_torrent s v n).catalog.find? (fun r => r.info_hash == id)
    = s.catalog.find? (fun r => r.info_hash == id)
  rw [pause_catalog, find?_map_pres _ _ _ hh]
  cases hg : s.catalog.find? (fun r => r.info_hash == id) with
  | none => rfl
  | some r =>
    have hid : r.info_hash = id := by
      have := List.find?_some hg
      simpa using this
    have hnv : ¬ r.info_hash = v := by
      rw [hid]
      exact fun he => hne he.symm
    simp [hnv]

lemma evictLoop_db_get_other (now : Nat) :
    ∀ (l : List String) (s : AppState) (id : String),
      (∀ v ∈ l, v ≠ id) →
      db_get_torrent (evictLoop now s l) id = db_get_torrent s id := by
  intro l
  induction l with
  | nil => intro s id _; rfl
  | cons h rest ih =>
    intro s id hne
    rw [evictLoop]
    by_cases hc : rest.length + 1 > s.maxActive
    · rw [if_pos hc]
      rw [ih (pause_torrent s h now) id
        (fun v hv => hne v (List.mem_cons_of_mem _ hv))]
      exact db_get_pause_ne s h now id (hne h (List.mem_cons_self _ _))
    · rw [if_neg hc]

lemma evictLoop_not_mem_keys (now : Nat) :
    ∀ (l : List String) (s : AppState) (id : String),
      id ∉ mapKeys s → id ∉ mapKeys (evictLoop now s l) := by
  intro l
  induction l with
  | nil => intro s id hnot; exact hnot
  | cons h rest ih =>
    intro s id hnot
    rw [evictLoop]
    by_cases hc : rest.length + 1 > s.maxActive
    · rw [if_pos hc]
      refine ih (pause_torrent s h now) id ?_
      rw [mapKeys_pause]
      intro hmem
      exact hnot (List.mem_filter.mp hmem).1
    · rw [if_neg hc]
      exact hnot

lemma not_mem_activeIds (s : AppState) (id : String) (r : TRow)
    (hnd : (catIds s).Nodup) (hget : db_get_torrent s id = some r)
    (hact : ¬ r.active = 1) : id ∉ db_list_active_torrents s := by
  intro hmem
  simp only [db_list_active_torrents, List.mem_map, List.mem_filter] at hmem
  rcases hmem with ⟨r2, ⟨hmem2, hact2⟩, hh⟩
  have hfind := db_get_of_mem_nodup s.catalog r2 hnd hmem2
  rw [hh] at hfind
  have : r = r2 := by
    have := hget.symm.trans hfind
    simpa using this
  rw [this] at hact
  exact hact (by simpa using hact2)

/-- C8 (amended): when the catalog references `id` but the descriptor blob
is missing from the archive, resume surfaces 404 NotFound to the caller and
the completed operation leaves the state untouched; but when the engine load
itself fails, the exception is caught and merely logged, so the operation
reports SUCCESS to the caller (the original "reports failure" is refuted by
`resume_engine_fail_reports_ok_cex`) — while `id`'s catalog row, the
archive, and its non-residency are all left unchanged (no partial write
survives). -/
theorem resume_failure_modes (s : AppState) (id : String) (now : Nat)
    (r : TRow) (hI : SysInv s) (hget : db_get_torrent s id = some r)
    (hact : ¬ r.active = 1) :
    (fileLookup s id = none →
      ∀ eo, resume_torrent_endpoint s id now eo = .error 404
        ∧ step s (Op.resume id now eo) = s)
    ∧ (∀ b, fileLookup s id = some b →
      ∃ s', resume_torrent_endpoint s id now false = .ok s'
        ∧ db_get_torrent s' id = some r
        ∧ id ∉ mapKeys s'
        ∧ s'.torrent_files = s.torrent_files) := by
  obtain ⟨⟨hcat, hmap, hsub⟩, hcard⟩ := hI
  have hnotact : id ∉ db_list_active_torrents s :=
    not_mem_activeIds s id r hcat hget hact
  have hmapn : id ∉ mapKeys s := fun hmem => hnotact (hsub id hmem)
  have hnact : ¬ (r.active == 1 && mapHasKey s id) = true := by
    intro hc
    rw [Bool.and_eq_true] at hc
    exact hact (by simpa using hc.1)
  constructor
  · intro hfl eo
    have h404 := resume_blob_missing s id now eo r hget hnact hfl
    constructor
    · simp only [resume_torrent_endpoint]
      rw [h404]
    · simp only [step, resume_torrent_endpoint]
      rw [h404]
  · intro b hfl
    have hok := resume_engine_fail_noop s id now r hget hnact b hfl
    refine ⟨ensure_memory_limit s now, ?_, ?_, ?_, ?_⟩
    · simp only [resume_torrent_endpoint]
      rw [hok]
    · simp only [ensure_memory_limit]
      rw [evictLoop_db_get_other now _ s id ?hvne]
      · exact hget
      case hvne =>
        intro v hv
        have hvmem : v ∈ db_list_active_torrents s :=
          ((sortByKey_perm (lruKey s) (db_list_active_torrents s)).mem_iff).mp hv
        exact fun he => hnotact (he ▸ hvmem)
    · simp only [ensure_memory_limit]
      exact evictLoop_not_mem_keys now _ s id hmapn
    · exact (ensure_sysinv s now ⟨hcat, hmap, hsub⟩).2.2.1

/-- Witness for C8's amended theorem: from the reachable state where "y" is
paused with its blob on disk, the engine-failure resume returns success with
"y" still non-resident and its row intact. -/
theorem resume_failure_modes_witness :
    SysInv (run (initState 2)
      [Op.add [⟨true, some ("y", "ny"), true⟩] 0, Op.pause "y" 1])
    ∧ ∃ s', resume_torrent_endpoint (run (initState 2)
          [Op.add [⟨true, some ("y", "ny"), true⟩] 0, Op.pause "y" 1])
          "y" 5 false = .ok s'
        ∧ db_get_torrent s' "y" = some ⟨"y", some "ny", 0, 0, 1, 0⟩
        ∧ "y" ∉ mapKeys s'
        ∧ s'.torrent_files = (run (initState 2)
            [Op.add [⟨true, some ("y", "ny"), true⟩] 0,
             Op.pause "y" 1]).torrent_files :=
  ⟨⟨⟨by decide, by decide, by decide⟩, by decide⟩,
   (resume_failure_modes (run (initState 2)
      [Op.add [⟨true, some ("y", "ny"), true⟩] 0, Op.pause "y" 1])
      "y" 5 ⟨"y", some "ny", 0, 0, 1, 0⟩
      ⟨⟨by decide, by decide, by decide⟩, by decide⟩
      (by decide) (by decide)).2 "ny" (by decide)⟩

/-- C8 counterexample: the resume endpoint, on a paused item whose blob is
present, returns a success response even though the engine load failed — the
caller is never told of the failure. -/
theorem resume_engine_fail_reports_ok_cex :
    resume_torrent_endpoint (run (initState 2)
        [Op.add [⟨true, some ("y", "ny"), true⟩] 0, Op.pause "y" 1])
        "y" 2 false
      = .ok (run (initState 2)
        [Op.add [⟨true, some ("y", "ny"), true⟩] 0, Op.pause "y" 1]) := by
  rfl

/-- C9: an upload whose id is already present in the catalog is rejected
(per-file error, the `false` flag) before any write — the existing row with
its name, counters, `last_access` and residency, and the archived
descriptor, are all untouched because the whole state is unchanged; a fresh
insert appends a row with zero counters, residency `active = 1`, and
`last_access` equal to the current time. -/
theorem insert_semantics (s : AppState) (id nm : String) (now : Nat)
    (eo : Bool) :
    ((db_get_torrent s id).isSome = true →
      process_torrent_file s ⟨true, some (id, nm), eo⟩ now = (s, false))
    ∧ (db_get_torrent s id = none →
      (db_insert_torrent s id nm now).catalog
        = s.catalog ++ [⟨id, some nm, 0, 0, now, 1⟩]) := by
  constructor
  · intro h
    show (if (db_get_torrent s id).isSome = true then (s, false)
        else (add_torrent_from_file (db_insert_torrent
          { s with torrent_files := filesPut s.torrent_files id nm }
          id nm now) id 0 0 now eo, true)) = (s, false)
    rw [if_pos h]
  · intro h
    rw [insert_fresh s id nm now ((db_get_eq_none_iff s id).mp h)]

/-- Witness for C9: re-uploading the already-present "a" is rejected with
the state unchanged, and a fresh insert of "b" appends the expected row. -/
theorem insert_semantics_witness :
    (((db_get_torrent (run (initState 2)
        [Op.add [⟨true, some ("a", "na"), true⟩] 0]) "a").isSome = true)
      ∧ process_torrent_file (run (initState 2)
          [Op.add [⟨true, some ("a", "na"), true⟩] 0])
          ⟨true, some ("a", "na2"), true⟩ 7
        = (run (initState 2) [Op.add [⟨true, some ("a", "na"), true⟩] 0], false))
    ∧ (db_get_torrent (initState 2) "b" = none
      ∧ (db_insert_torrent (initState 2) "b" "nb" 4).catalog
        = (initState 2).catalog ++ [⟨"b", some "nb", 0, 0, 4, 1⟩]) :=
  ⟨⟨by decide,
    (insert_semantics (run (initState 2)
      [Op.add [⟨true, some ("a", "na"), true⟩] 0]) "a" "na2" 7 true).1
      (by decide)⟩,
   ⟨by decide,
    (insert_semantics (initState 2) "b" "nb" 4 true).2 (by decide)⟩⟩

lemma remove_one_payloads_nogood (s : AppState) (id : String) (record : TRow)
    (hget : db_get_torrent s id = some record)
    (hres : lookupHandle s id = none)
    (hname : nameGoodB record.name = false) :
    (remove_one s id true).1.payloads = s.payloads := by
  simp only [remove_one]
  split
  · rename_i hnone
    rw [hget] at hnone
  · rename_i record' heq
    have hrec : record = record' := by
      rw [hget] at heq
      simpa using heq
    subst hrec
    rw [hres]
    split
    · rename_i hcond
      rw [hname] at hcond
      simp at hcond
    · rfl

/-- C10 (amended): for a NON-resident item whose catalog name is NULL or
the "Unknown" placeholder, remove with `delete_files = true` leaves the
payload directories untouched while still deleting the catalog row and the
archived descriptor; for a RESIDENT item the engine unload
(`session.remove_torrent(handle, True)`) deletes the payload regardless of
the catalog name — the unqualified original claim is refuted by
`unknown_name_payload_cex`. -/
theorem remove_unknown_name_payload (s : AppState) (id : String) (r : TRow)
    (hget : db_get_torrent s id = some r)
    (hname : r.name = none ∨ r.name = some "Unknown")
    (hres : id ∉ mapKeys s) :
    (remove_torrents s [id] true).1.payloads = s.payloads
    ∧ db_get_torrent (remove_torrents s [id] true).1 id = none
    ∧ fileLookup (remove_torrents s [id] true).1 id = none := by
  have hng : nameGoodB r.name = false := by
    rcases hname with h | h <;> rw [h] <;> decide
  have hlk : lookupHandle s id = none := (lookupHandle_none_iff s id).mpr hres
  rw [remove_single]
  refine ⟨remove_one_payloads_nogood s id r hget hlk hng, ?_, ?_⟩
  · show (remove_one s id true).1.catalog.find? (fun x => x.info_hash == id)
      = none
    rw [remove_one_catalog s id true r hget]
    exact find_filter_none s.catalog id
  · show ((remove_one s id true).1.torrent_files.find?
        (fun p => p.1 == id)).map (·.2) = none
    rw [remove_one_files s id true r hget, find_filter_none_pair]
    rfl

/-- Witness for C10's amended theorem: the paused item "hu" named "Unknown"
is removed with `delete_files = true`; its payload directory survives while
row and blob are deleted. -/
theorem remove_unknown_name_payload_witness :
    (db_get_torrent (run (initState 5)
        [Op.add [⟨true, some ("hu", "Unknown"), true⟩] 0, Op.pause "hu" 1])
        "hu" = some ⟨"hu", some "Unknown", 0, 0, 1, 0⟩)
    ∧ ((remove_torrents (run (initState 5)
          [Op.add [⟨true, some ("hu", "Unknown"), true⟩] 0, Op.pause "hu" 1])
          ["hu"] true).1.payloads
        = (run (initState 5)
          [Op.add [⟨true, some ("hu", "Unknown"), true⟩] 0,
           Op.pause "hu" 1]).payloads
      ∧ db_get_torrent (remove_torrents (run (initState 5)
          [Op.add [⟨true, some ("hu", "Unknown"), true⟩] 0, Op.pause "hu" 1])
          ["hu"] true).1 "hu" = none
      ∧ fileLookup (remove_torrents (run (initState 5)
          [Op.add [⟨true, some ("hu", "Unknown"), true⟩] 0, Op.pause "hu" 1])
          ["hu"] true).1 "hu" = none) :=
  ⟨by decide,
   remove_unknown_name_payload (run (initState 5)
      [Op.add [⟨true, some ("hu", "Unknown"), true⟩] 0, Op.pause "hu" 1])
      "hu" ⟨"hu", some "Unknown", 0, 0, 1, 0⟩
      (by decide) (Or.inr (by decide)) (by decide)⟩

/-- C10 counterexample: for the RESIDENT item "hu" named "Unknown", remove
with `delete_files = true` deletes the on-disk payload through the engine
unload, so the payload is not left untouched. -/
theorem unknown_name_payload_cex :
    (run (initState 5)
        [Op.add [⟨true, some ("hu", "Unknown"), true⟩] 0]).payloads
      = ["Unknown"]
    ∧ ((db_get_torrent (run (initState 5)
        [Op.add [⟨true, some ("hu", "Unknown"), true⟩] 0]) "hu").map (·.name))
      = some (some "Unknown")
    ∧ "hu" ∈ mapKeys (run (initState 5)
        [Op.add [⟨true, some ("hu", "Unknown"), true⟩] 0])
    ∧ (remove_torrents (run (initState 5)
        [Op.add [⟨true, some ("hu", "Unknown"), true⟩] 0]) ["hu"] true).1.payloads
      = [] :=
  ⟨by decide, by decide, by decide, by decide⟩

/-- Componentwise order on (bytes_uploaded, bytes_downloaded) pairs. -/
def pairLE (a b : Nat × Nat) : Prop := a.1 ≤ b.1 ∧ a.2 ≤ b.2

/-- The successive values flushed to the catalog for item `x`, extracted
from the ghost flush log. -/
def flushesFor (x : String) (log : List (String × Nat × Nat)) :
    List (Nat × Nat) :=
  (log.filter (fun e => e.1 == x)).map (·.2)

/-- In-run operations of a single process lifetime: every completed public
operation except the startup reconciliation that begins a run and the
shutdown flush that ends it. -/
def inRunOp : Op → Bool
  | .startup _ _ => false
  | .shutdown => false
  | _ => true

/-- Between startup and shutdown every entry of the ghost flush log was
written with both counters zero: admissions are the only in-run flushes and
`process_torrent_file` passes `total_uploaded = total_downloaded = 0`. -/
def zeroFlushes (s : AppState) : Prop :=
  ∀ e ∈ s.flushLog, e.2.1 = 0 ∧ e.2.2 = 0

lemma flushesFor_append (x : String) (log : List (String × Nat × Nat))
    (k : String) (u d : Nat) :
    flushesFor x (log ++ [(k, u, d)])
      = flushesFor x log ++ (if k = x then [(u, d)] else []) := by
  simp only [flushesFor, List.filter_append, List.map_append]
  congr 1
  by_cases hk : k = x <;> simp [hk]

lemma chain'_concat (l : List (Nat × Nat)) (e : Nat × Nat)
    (hc : List.Chain' pairLE l)
    (hlast : ∀ last ∈ l.getLast?, pairLE last e) :
    List.Chain' pairLE (l ++ [e]) := by
  apply List.Chain'.append hc (List.chain'_singleton e)
  intro a ha b hb
  simp only [List.head?_cons, Option.mem_def, Option.some_inj] at hb
  rw [← hb]
  exact hlast a ha

lemma stats_flushLog (s : AppState) (id : String) (u d : Nat) :
    (db_update_torrent_stats s id u d).flushLog
      = if id ∈ catIds s then s.flushLog ++ [(id, u, d)] else s.flushLog := by
  simp only [db_update_torrent_stats]
  by_cases hmem : id ∈ catIds s
  · rw [if_pos ((any_row_eq_mem s.catalog id).mpr hmem), if_pos hmem]
  · rw [if_neg (fun hc => hmem ((any_row_eq_mem s.catalog id).mp hc)),
      if_neg hmem]

lemma lookup_of_mem_nodup (m : List (String × Handle)) (p : String × Handle)
    (hnd : (m.map (·.1)).Nodup) (hp : p ∈ m) :
    m.find? (fun q => q.1 == p.1) = some p := by
  induction m with
  | nil => simp at hp
  | cons q m ih =>
    simp only [List.map_cons, List.nodup_cons] at hnd
    rcases List.mem_cons.mp hp with rfl | hp2
    · rw [List.find?_cons_of_pos _ (by simp)]
    · have hq : (q.1 == p.1) = false := by
        rw [beq_eq_false_iff_ne]
        intro he
        exact hnd.1 (he ▸ List.mem_map.mpr ⟨p, hp2, rfl⟩)
      rw [List.find?_cons, hq]
      exact ih hnd.2 hp2

lemma remove_one_flushLog (s : AppState) (id : String) (rf : Bool) :
    (remove_one s id rf).1.flushLog = s.flushLog := by
  simp only [remove_one]
  split
  · rfl
  · split <;> split <;> rfl

lemma ensure_flushLog (s : AppState) (now : Nat) :
    (ensure_memory_limit s now).flushLog = s.flushLog :=
  (evictLoop_frame now (sortByKey (lruKey s) (db_list_active_torrents s))
    s).2.2.2.1

lemma insert_flushLog (s : AppState) (id nm : String) (now : Nat) :
    (db_insert_torrent s id nm now).flushLog = s.flushLog := by
  simp only [db_insert_torrent]
  split <;> rfl

lemma add_file_flushLog (s : AppState) (id : String) (tu td now : Nat)
    (eo : Bool) (e : String × Nat × Nat)
    (he : e ∈ (add_torrent_from_file s id tu td now eo).flushLog) :
    e ∈ s.flushLog ∨ e = (id, tu, td) := by
  cases hf : fileLookup s id with
  | none =>
    rw [show add_torrent_from_file s id tu td now eo = s from by
      simp only [add_torrent_from_file]; rw [hf]] at he
    exact Or.inl he
  | some nm =>
    cases eo with
    | false =>
      rw [show add_torrent_from_file s id tu td now false = s from by
        simp only [add_torrent_from_file]; rw [hf]; rfl] at he
      exact Or.inl he
    | true =>
      rw [show add_torrent_from_file s id tu td now true
          = ensure_memory_limit (db_update_torrent_access
              (db_update_torrent_stats
                { s with
                  torrents_actifs := dictSet s.torrents_actifs id ⟨nm, 0, 0⟩,
                  payloads := payloadPut s.payloads nm } id tu td)
              id 1 now) now from by
        simp only [add_torrent_from_file]; rw [hf]; rfl] at he
      rw [ensure_flushLog, access_flushLog, stats_flushLog] at he
      split at he
      · rcases List.mem_append.mp he with h1 | h1
        · exact Or.inl h1
        · exact Or.inr (by simpa using h1)
      · exact Or.inl he

lemma process_flushLog_zero (s : AppState) (o : UploadOracle) (now : Nat)
    (h : zeroFlushes s) : zeroFlushes (process_torrent_file s o now).1 := by
  simp only [process_torrent_file]
  split
  · exact h
  · split
    · exact h
    · split
      · exact h
      · intro e he
        rcases add_file_flushLog _ _ 0 0 now o.engineOk e he with h1 | h1
        · rw [insert_flushLog] at h1
          exact h e h1
        · rw [h1]
          exact ⟨rfl, rfl⟩

lemma add_torrents_flushLog_zero (s : AppState) (files : List UploadOracle)
    (now : Nat) (h : zeroFlushes s) :
    zeroFlushes (add_torrents s files now) := by
  induction files generalizing s with
  | nil => exact h
  | cons o files ih =>
    simp only [add_torrents, List.foldl_cons]
    exact ih _ (process_flushLog_zero s o now h)

lemma pause_step_flushLog (s : AppState) (id : String) (now : Nat) :
    (step s (Op.pause id now)).flushLog = s.flushLog := by
  simp only [step]
  cases he2 : pause_torrent_endpoint s id now with
  | error e => rfl
  | ok r =>
    simp only [pause_torrent_endpoint] at he2
    split at he2
    · exact absurd he2 (by simp)
    · split at he2
      · rw [Except.ok.injEq] at he2
        rw [← he2]
      · rw [Except.ok.injEq] at he2
        rw [← he2]
        exact pause_flushLog s id now

lemma resume_step_flushLog (s : AppState) (id : String) (now : Nat)
    (eo : Bool) : (step s (Op.resume id now eo)).flushLog = s.flushLog := by
  simp only [step, resume_torrent_endpoint]
  cases hr : resume_torrent s id now eo with
  | error e => rfl
  | ok s1 =>
    have h1 : s1.flushLog = s.flushLog := by
      simp only [resume_torrent] at hr
      split at hr
      · exact absurd hr (by simp)
      · split at hr
        · rw [Except.ok.injEq] at hr
          rw [← hr, access_flushLog]
        · split at hr
          · exact absurd hr (by simp)
          · split at hr
            · rw [Except.ok.injEq] at hr
              rw [← hr, access_flushLog]
            · rw [Except.ok.injEq] at hr
              rw [← hr]
    show (ensure_memory_limit s1 now).flushLog = s.flushLog
    rw [ensure_flushLog, h1]

lemma remove_flushLog (s : AppState) (ids : List String) (rf : Bool) :
    (remove_torrents s ids rf).1.flushLog = s.flushLog := by
  exact foldl_preserve
    (fun (acc : AppState × List String × List String) id =>
      let r := remove_one acc.1 id rf
      if r.2 then (r.1, acc.2.1 ++ [id], acc.2.2)
      else (acc.1, acc.2.1, acc.2.2 ++ [id]))
    (fun acc => acc.1.flushLog = s.flushLog)
    (by
      intro a b hIa
      show (if (remove_one a.1 b rf).2 = true
          then ((remove_one a.1 b rf).1, a.2.1 ++ [b], a.2.2)
          else (a.1, a.2.1, a.2.2 ++ [b])).1.flushLog = s.flushLog
      by_cases hc : (remove_one a.1 b rf).2 = true
      · rw [if_pos hc]
        exact (remove_one_flushLog a.1 b rf).trans hIa
      · rw [if_neg hc]
        exact hIa)
    ids (s, [], []) rfl

lemma zeroFlushes_step (s : AppState) (op : Op) (hop : inRunOp op = true)
    (h : zeroFlushes s) : zeroFlushes (step s op) := by
  cases op with
  | add files now => exact add_torrents_flushLog_zero s files now h
  | pause id now =>
    intro e he
    rw [pause_step_flushLog] at he
    exact h e he
  | resume id now eo =>
    intro e he
    rw [resume_step_flushLog] at he
    exact h e he
  | remove ids rf =>
    intro e he
    simp only [step] at he
    rw [remove_flushLog] at he
    exact h e he
  | startup now ef => simp [inRunOp] at hop
  | shutdown => simp [inRunOp] at hop
  | tick ds => exact h

lemma zeroFlushes_run (s : AppState) (ops : List Op)
    (hops : ∀ op ∈ ops, inRunOp op = true) (h : zeroFlushes s) :
    zeroFlushes (run s ops) := by
  induction ops generalizing s with
  | nil => exact h
  | cons op ops ih =>
    have h1 := zeroFlushes_step s op (hops op (List.mem_cons_self _ _)) h
    have h2 := ih (step s op) (fun o ho => hops o (List.mem_cons_of_mem _ ho)) h1
    simp only [run, List.foldl_cons] at h2 ⊢
    exact h2

lemma chain_of_zeros (l : List (Nat × Nat))
    (h : ∀ e ∈ l, e.1 = 0 ∧ e.2 = 0) : List.Chain' pairLE l := by
  induction l with
  | nil => exact List.chain'_nil
  | cons a l ih =>
    cases l with
    | nil => exact List.chain'_singleton a
    | cons b l2 =>
      rw [List.chain'_cons]
      refine ⟨?_, ih ?_⟩
      · have ha := h a (List.mem_cons_self _ _)
        exact ⟨by rw [ha.1]; exact Nat.zero_le _,
               by rw [ha.2]; exact Nat.zero_le _⟩
      · intro e he
        exact h e (List.mem_cons_of_mem _ he)

lemma flushesFor_zeros (x : String) (s : AppState) (h : zeroFlushes s) :
    ∀ e ∈ flushesFor x s.flushLog, e.1 = 0 ∧ e.2 = 0 := by
  intro e he
  simp only [flushesFor, List.mem_map] at he
  rcases he with ⟨q, hq, he⟩
  have hz := h q (List.mem_filter.mp hq).1
  rw [← he]
  exact hz

lemma shutdown_fold_chain (x : String) :
    ∀ (es : List (String × Handle)) (t : AppState),
      (es.map (·.1)).Nodup →
      List.Chain' pairLE (flushesFor x t.flushLog) →
      (x ∈ es.map (·.1) → ∀ e ∈ flushesFor x t.flushLog, e.1 = 0 ∧ e.2 = 0) →
      List.Chain' pairLE (flushesFor x
        (es.foldl (fun acc p =>
            db_update_torrent_stats acc p.1 p.2.up p.2.down) t).flushLog) := by
  intro es
  induction es with
  | nil =>
    intro t _ hc _
    exact hc
  | cons p es ih =>
    intro t hnd hc hz
    rw [List.map_cons, List.nodup_cons] at hnd
    rw [List.foldl_cons]
    by_cases hpx : p.1 = x
    · have hall : ∀ e ∈ flushesFor x t.flushLog, e.1 = 0 ∧ e.2 = 0 :=
        hz (by rw [List.map_cons, hpx]; exact List.mem_cons_self _ _)
      have hc2 : List.Chain' pairLE (flushesFor x
          (db_update_torrent_stats t p.1 p.2.up p.2.down).flushLog) := by
        rw [stats_flushLog]
        by_cases hmem : p.1 ∈ catIds t
        · rw [if_pos hmem, flushesFor_append, if_pos hpx]
          refine chain'_concat _ _ hc ?_
          intro last hlast
          have hl := hall last (List.mem_of_mem_getLast? hlast)
          exact ⟨by rw [hl.1]; exact Nat.zero_le _,
                 by rw [hl.2]; exact Nat.zero_le _⟩
        · rw [if_neg hmem]
          exact hc
      refine ih _ hnd.2 hc2 ?_
      intro hxmem
      exact absurd (by rw [hpx]; exact hxmem) hnd.1
    · have hf : flushesFor x
          (db_update_torrent_stats t p.1 p.2.up p.2.down).flushLog
            = flushesFor x t.flushLog := by
        rw [stats_flushLog]
        by_cases hmem : p.1 ∈ catIds t
        · rw [if_pos hmem, flushesFor_append, if_neg hpx, List.append_nil]
        · rw [if_neg hmem]
      refine ih _ hnd.2 (by rw [hf]; exact hc) ?_
      intro hxmem e he
      rw [hf] at he
      exact hz (by rw [List.map_cons]; exact List.mem_cons_of_mem _ hxmem) e he

/-- The monotone-flush-history property for item `x` in state `s`: the
successive (bytes_uploaded, bytes_downloaded) pairs flushed to the catalog
for `x` never decrease.  (Marked irreducible below so that statements
applying it to long concrete runs elaborate without evaluating the run.) -/
def flushHistMono (x : String) (s : AppState) : Prop :=
  List.Chain' pairLE (flushesFor x s.flushLog)

lemma flushHistMono_iff (x : String) (s : AppState) :
    flushHistMono x s ↔ List.Chain' pairLE (flushesFor x s.flushLog) :=
  Iff.rfl

attribute [irreducible] flushHistMono

/-- C5 (amended): within a single process run — a sequence of completed
public operations containing no startup reconciliation, closed by the
terminal shutdown flush — the successive (bytes_uploaded, bytes_downloaded)
pairs flushed to the catalog never decrease for any item, including across
pause/resume cycles and removals: every in-run flush is the zero flush of
an admission (add-torrents passes total_uploaded = total_downloaded = 0)
and the final shutdown flushes each resident handle's counters exactly
once.  Across a process restart the claim fails: the startup reconciliation
re-flushes the stale stored totals while the reloaded handle's session
counters restart at zero, as `stats_flush_decrease_cex` shows. -/
theorem stats_flushes_monotone (C : Nat) (ops : List Op) (x : String)
    (hrun : ∀ op ∈ ops, inRunOp op = true) :
    flushHistMono x (run (initState C) (ops ++ [Op.shutdown])) := by
  rw [flushHistMono_iff]
  have hz : zeroFlushes (run (initState C) ops) :=
    zeroFlushes_run (initState C) ops hrun
      (by intro e he; simp [initState] at he)
  have hnd : (mapKeys (run (initState C) ops)).Nodup :=
    (run_sysinv (initState C) ops (initState_sysinv C)).1.1.2.1
  have hsplit : run (initState C) (ops ++ [Op.shutdown])
      = shutdown_event (run (initState C) ops) := by
    simp only [run, List.foldl_append, List.foldl_cons, List.foldl_nil, step]
  rw [hsplit]
  exact shutdown_fold_chain x (run (initState C) ops).torrents_actifs
    (run (initState C) ops) hnd
    (chain_of_zeros _ (flushesFor_zeros x _ hz))
    (fun _ => flushesFor_zeros x _ hz)

/-- Witness for C5's amended theorem: a run that admits "x", lets it
transfer, pauses and resumes it, transfers again and ends with the shutdown
flush keeps its flush history monotone. -/
theorem stats_flushes_monotone_witness :
    (∀ op ∈ ([Op.add [⟨true, some ("x", "nx"), true⟩] 0,
        Op.tick [("x", 7, 9)], Op.pause "x" 1, Op.resume "x" 2 true,
        Op.tick [("x", 4, 4)]] : List Op), inRunOp op = true)
    ∧ flushHistMono "x" (run (initState 3)
        ([Op.add [⟨true, some ("x", "nx"), true⟩] 0,
          Op.tick [("x", 7, 9)], Op.pause "x" 1, Op.resume "x" 2 true,
          Op.tick [("x", 4, 4)]] ++ [Op.shutdown])) :=
  ⟨by decide,
   stats_flushes_monotone 3
     [Op.add [⟨true, some ("x", "nx"), true⟩] 0,
      Op.tick [("x", 7, 9)], Op.pause "x" 1, Op.resume "x" 2 true,
      Op.tick [("x", 4, 4)]] "x" (by decide)⟩


instance (a b : Nat × Nat) : Decidable (pairLE a b) :=
  inferInstanceAs (Decidable (a.1 ≤ b.1 ∧ a.2 ≤ b.2))

/-- C5 counterexample: "x" is added and uploads 1000/800 which shutdown
flushes; after a restart the startup reconciliation re-flushes the stored
(1000, 800) but the reloaded handle's session counters restart at zero, so
the final shutdown flushes (5, 3) — a strict decrease between consecutive
flushes of an item that stayed resident between them. -/
theorem stats_flush_decrease_cex :
    (run (initState 5)
        [Op.add [⟨true, some ("x", "nx"), true⟩] 0,
         Op.tick [("x", 1000, 800)], Op.shutdown, Op.startup 1 [],
         Op.tick [("x", 5, 3)], Op.shutdown]).flushLog
      = [("x", 0, 0), ("x", 1000, 800), ("x", 1000, 800), ("x", 5, 3)]
    ∧ mapKeys (run (initState 5)
        [Op.add [⟨true, some ("x", "nx"), true⟩] 0,
         Op.tick [("x", 1000, 800)], Op.shutdown, Op.startup 1 [],
         Op.tick [("x", 5, 3)], Op.shutdown]) = ["x"]
    ∧ ¬ pairLE (1000, 800) (5, 3) :=
  ⟨by decide, by decide, by decide⟩
